import Mathlib

/-!
Shallow embedding of `src/main.rs` of the bevyfield scene viewer.

Conventions of the embedding:
* `f32`/`f64` values are modelled by `ℚ` (exact arithmetic; the claims speak
  of equality "within floating-point tolerance", which exact arithmetic
  witnesses).
* The bevy ECS world is a list of entities, each entity a record of optional
  components, plus the singleton resources (`Time`, `RenderParams`,
  `ModelManager`).
* Panics (`expect`, `unwrap_or_else(panic)`) are modelled by `Option`:
  `none` is an abort.
* GL side effects are modelled as an emitted trace of `GlCmd` events.
* Functions that live in external crates (`dreamfield_renderer`, `cgmath`)
  are parameters of the model, collected in `Externals`; where the spec
  pins their behaviour down, the definition carries a
  `Modelled from the spec` note.
-/

/-- Whether wireframe mode is enabled (`WIREFRAME_MODE` in the source). -/
def WIREFRAME_MODE : Bool := false

/-- The camera look speed (`CAM_LOOK_SPEED = 0.001`). -/
def CAM_LOOK_SPEED : ℚ := 1 / 1000

/-- The camera fly speed (`CAM_FLY_SPEED = 0.1`). -/
def CAM_FLY_SPEED : ℚ := 1 / 10

/-- The width of the window (`WINDOW_WIDTH = 1024 * 2`). -/
def WINDOW_WIDTH : ℤ := 1024 * 2

/-- The height of the window (`WINDOW_HEIGHT = 768 * 2`). -/
def WINDOW_HEIGHT : ℤ := 768 * 2

/-- The fixed update frequency (`FIXED_UPDATE = 30`). -/
def FIXED_UPDATE : ℤ := 30

/-- The fixed update target time (`FIXED_UPDATE_TIME = 1.0 / FIXED_UPDATE`). -/
def FIXED_UPDATE_TIME : ℚ := 1 / (FIXED_UPDATE : ℚ)

/-- The render width (`RENDER_WIDTH = 320`). -/
def RENDER_WIDTH : ℤ := 320

/-- The render height (`RENDER_HEIGHT = 240`). -/
def RENDER_HEIGHT : ℤ := 240

/-- The render aspect ratio (`RENDER_ASPECT = 4.0 / 3.0`). -/
def RENDER_ASPECT : ℚ := 4 / 3

theorem FIXED_UPDATE_TIME_pos : 0 < FIXED_UPDATE_TIME := by
  norm_num [FIXED_UPDATE_TIME, FIXED_UPDATE]

/-- The inner `while accumulator >= FIXED_UPDATE_TIME` loop of `main`,
abstracted from the world updates: returns the number of iterations
(simulation ticks) together with the final accumulator value. -/
def fixedTicks (acc : ℚ) : ℕ × ℚ :=
  if FIXED_UPDATE_TIME ≤ acc then
    let p := fixedTicks (acc - FIXED_UPDATE_TIME)
    (p.1 + 1, p.2)
  else
    (0, acc)
termination_by (⌊acc / FIXED_UPDATE_TIME⌋).toNat
decreasing_by
  have hdt : 0 < FIXED_UPDATE_TIME := FIXED_UPDATE_TIME_pos
  have h1 : (1 : ℚ) ≤ acc / FIXED_UPDATE_TIME := (one_le_div hdt).mpr (by assumption)
  have hsub : (acc - FIXED_UPDATE_TIME) / FIXED_UPDATE_TIME
      = acc / FIXED_UPDATE_TIME - 1 := by
    field_simp
  have hfl : ⌊(acc - FIXED_UPDATE_TIME) / FIXED_UPDATE_TIME⌋
      = ⌊acc / FIXED_UPDATE_TIME⌋ - 1 := by
    rw [hsub, Int.floor_sub_one]
  have hge : (1 : ℤ) ≤ ⌊acc / FIXED_UPDATE_TIME⌋ := by
    exact_mod_cast Int.le_floor.mpr (by exact_mod_cast h1)
  rw [hfl]
  omega

theorem fixedTicks_of_lt {acc : ℚ} (h : acc < FIXED_UPDATE_TIME) :
    fixedTicks acc = (0, acc) := by
  rw [fixedTicks]
  simp [not_le.mpr h]

theorem fixedTicks_of_ge {acc : ℚ} (h : FIXED_UPDATE_TIME ≤ acc) :
    fixedTicks acc = ((fixedTicks (acc - FIXED_UPDATE_TIME)).1 + 1,
      (fixedTicks (acc - FIXED_UPDATE_TIME)).2) := by
  rw [fixedTicks]
  simp [h]

/-- The tick count of the accumulator loop is the floor of `acc / FIXED_DT`,
and the leftover accumulator is `acc - count * FIXED_DT`, lying in
`[0, FIXED_DT)`, for any nonnegative starting accumulator. -/
theorem fixedTicks_spec (acc : ℚ) (hacc : 0 ≤ acc) :
    (fixedTicks acc).1 = (⌊acc / FIXED_UPDATE_TIME⌋).toNat ∧
    (fixedTicks acc).2 = acc - ((fixedTicks acc).1 : ℚ) * FIXED_UPDATE_TIME ∧
    0 ≤ (fixedTicks acc).2 ∧ (fixedTicks acc).2 < FIXED_UPDATE_TIME := by
  have hdt : 0 < FIXED_UPDATE_TIME := FIXED_UPDATE_TIME_pos
  induction acc using fixedTicks.induct with
  | case1 acc hle ih =>
    have hsub0 : 0 ≤ acc - FIXED_UPDATE_TIME := by linarith
    obtain ⟨ih1, ih2, ih3, ih4⟩ := ih hsub0
    rw [fixedTicks_of_ge hle]
    constructor
    · have hfl : ⌊(acc - FIXED_UPDATE_TIME) / FIXED_UPDATE_TIME⌋
          = ⌊acc / FIXED_UPDATE_TIME⌋ - 1 := by
        have : (acc - FIXED_UPDATE_TIME) / FIXED_UPDATE_TIME
            = acc / FIXED_UPDATE_TIME - 1 := by field_simp
        rw [this, Int.floor_sub_one]
      have hge : (1 : ℤ) ≤ ⌊acc / FIXED_UPDATE_TIME⌋ := by
        have h1 : (1 : ℚ) ≤ acc / FIXED_UPDATE_TIME := (one_le_div hdt).mpr hle
        exact Int.le_floor.mpr (by exact_mod_cast h1)
      simp only [ih1, hfl]
      omega
    · refine ⟨?_, ih3, ih4⟩
      simp only [ih2]
      push_cast
      ring
  | case2 acc h =>
    have hlt : acc < FIXED_UPDATE_TIME := not_le.mp h
    rw [fixedTicks_of_lt hlt]
    refine ⟨?_, by simp, hacc, hlt⟩
    have : ⌊acc / FIXED_UPDATE_TIME⌋ = 0 := by
      rw [Int.floor_eq_zero_iff]
      constructor
      · positivity
      · rw [div_lt_one hdt]; exact hlt
    simp [this]

/-- C1: for a frame starting with accumulator `acc` and elapsed wall-clock
time `T` (both nonnegative), the fixed-timestep loop executes exactly
`⌊(acc + T) / FIXED_DT⌋` simulation ticks, and the leftover accumulator is
in `[0, FIXED_DT)`. -/
theorem fixed_timestep_tick_count (acc T : ℚ) (hacc : 0 ≤ acc) (hT : 0 ≤ T) :
    (fixedTicks (acc + T)).1 = (⌊(acc + T) / FIXED_UPDATE_TIME⌋).toNat ∧
    0 ≤ (fixedTicks (acc + T)).2 ∧
    (fixedTicks (acc + T)).2 < FIXED_UPDATE_TIME := by
  obtain ⟨h1, _, h3, h4⟩ := fixedTicks_spec (acc + T) (by linarith)
  exact ⟨h1, h3, h4⟩

/-- Witness for C1: a concrete frame with `acc = 0`, `T = 7/60` runs
exactly 3 ticks (⌊(7/60)/(1/30)⌋ = 3) with leftover in `[0, 1/30)`. -/
theorem fixed_timestep_tick_count_witness :
    (0 : ℚ) ≤ 0 ∧ (0 : ℚ) ≤ 7/60 ∧
    ((fixedTicks ((0 : ℚ) + 7/60)).1 = (⌊(((0 : ℚ) + 7/60)) / FIXED_UPDATE_TIME⌋).toNat ∧
     0 ≤ (fixedTicks ((0 : ℚ) + 7/60)).2 ∧
     (fixedTicks ((0 : ℚ) + 7/60)).2 < FIXED_UPDATE_TIME) :=
  ⟨le_refl 0, by norm_num, fixed_timestep_tick_count 0 (7/60) (le_refl 0) (by norm_num)⟩

/-- A 3-vector of rationals (models `cgmath::Vector3<f32>`). -/
structure Vec3 where
  x : ℚ
  y : ℚ
  z : ℚ
  deriving DecidableEq, Repr

/-- A 4x4 matrix of rationals (models `cgmath::Matrix4<f32>`), row major. -/
structure Mat4 where
  m00 : ℚ
  m01 : ℚ
  m02 : ℚ
  m03 : ℚ
  m10 : ℚ
  m11 : ℚ
  m12 : ℚ
  m13 : ℚ
  m20 : ℚ
  m21 : ℚ
  m22 : ℚ
  m23 : ℚ
  m30 : ℚ
  m31 : ℚ
  m32 : ℚ
  m33 : ℚ
  deriving DecidableEq, Repr

/-- The identity matrix (`SquareMatrix::identity()`). -/
def Mat4.identity : Mat4 :=
  ⟨1, 0, 0, 0,
   0, 1, 0, 0,
   0, 0, 1, 0,
   0, 0, 0, 1⟩

/-- A translation-only matrix (`Matrix4::from_translation(v)`): the identity
with the translation vector in the last column. -/
def Mat4.fromTranslation (v : Vec3) : Mat4 :=
  ⟨1, 0, 0, v.x,
   0, 1, 0, v.y,
   0, 0, 1, v.z,
   0, 0, 0, 1⟩

/-- Position component. -/
structure Position where
  x : ℚ
  y : ℚ
  z : ℚ
  deriving DecidableEq, Repr

/-- Velocity component. -/
structure Velocity where
  x : ℚ
  y : ℚ
  z : ℚ
  deriving DecidableEq, Repr

/-- PitchYaw component. -/
structure PitchYaw where
  pitch : ℚ
  yaw : ℚ
  deriving DecidableEq, Repr

/-- Model component (`Model { name }` in the source; the spec calls it
ModelRef). -/
structure Model where
  name : String
  deriving DecidableEq, Repr

/-- Modelled from the spec: `FpsCamera` lives in the external
`dreamfield_renderer` crate. Per the spec it holds a position and
orientation plus a derived forward vector and derived view matrix that are
recomputed by `update()` from the stored position/orientation, and are stale
until then. -/
structure FpsCamera where
  pos : Vec3
  pitch : ℚ
  yaw : ℚ
  view : Mat4
  fwd : Vec3
  deriving DecidableEq, Repr

/-- Camera component (`CameraComponent { camera: FpsCamera }`). -/
structure CameraComponent where
  camera : FpsCamera
  deriving DecidableEq, Repr

/-- Time resource. -/
structure Time where
  time : ℚ
  time_delta : ℚ
  deriving DecidableEq, Repr

/-- The `Time::default()` value: both fields zero. -/
def Time.default : Time := ⟨0, 0⟩

/-- The two preprocessed shader sources (external macro output; opaque). -/
inductive ShaderSrc where
  | ps1Source : ShaderSrc
  | blitSource : ShaderSrc
  deriving DecidableEq, Repr

/-- A compiled shader program, tagged by how it was built (external). -/
inductive ShaderProgram where
  | fromVtf : ShaderSrc → ShaderProgram
  | fromVf : ShaderSrc → ShaderProgram
  deriving DecidableEq, Repr

/-- A framebuffer, recording the size it was created with
(`Framebuffer::new(width, height)`). -/
structure Framebuffer where
  width : ℤ
  height : ℤ
  deriving DecidableEq, Repr

/-- A vertex attribute descriptor (`VertexAttrib`). -/
structure VertexAttrib where
  index : ℕ
  size : ℕ
  deriving DecidableEq, Repr

/-- An indexed mesh (`Mesh::new_indexed(verts, indices, attribs)`). -/
structure Mesh where
  verts : List ℚ
  indices : List ℕ
  attribs : List VertexAttrib
  deriving DecidableEq, Repr

/-- The global uniform block (`UniformBuffer<GlobalParams>`): one field per
setter the source calls. Per-field dirty tracking is internal to the
external crate; the spec notes it is unobservable (upload-whole-block is
equivalent), so the model stores current field values only. -/
structure UniformBuffer where
  fogColor : Vec3
  fogDist : ℚ × ℚ
  targetAspect : ℚ
  renderRes : ℚ × ℚ
  windowAspect : ℚ
  matProj : Mat4
  simTime : ℚ
  matView : Mat4
  matModel : Mat4
  deriving DecidableEq, Repr

/-- Modelled from the spec: `UniformBuffer::new()` is external; its initial
field values are unspecified, taken here as zeros/identity. Every field the
claims mention is overwritten by `RenderParams::new` or the render pass
before use. -/
def UniformBuffer.new : UniformBuffer :=
  { fogColor := ⟨0, 0, 0⟩
    fogDist := (0, 0)
    targetAspect := 0
    renderRes := (0, 0)
    windowAspect := 0
    matProj := Mat4.identity
    simTime := 0
    matView := Mat4.identity
    matModel := Mat4.identity }

/-- A loaded renderable model (external `GltfModel`); the part of its state
the source mutates is the internal transform set by `set_transform`. -/
structure GltfModel where
  transform : Mat4
  deriving DecidableEq, Repr

/-- The external functions the source calls whose definitions live outside
this repository: the view/forward derivations of `FpsCamera::update`, the
`cgmath::perspective` projection, and the default camera state of
`FpsCamera::new()`. All theorems hold for every choice of these. -/
structure Externals where
  viewFn : Vec3 → ℚ → ℚ → Mat4
  fwdFn : ℚ → ℚ → Vec3
  projMat : Mat4
  newCam : FpsCamera

/-- RenderParams resource. -/
structure RenderParams where
  ubo_global : UniformBuffer
  ps1_shader_program : ShaderProgram
  blit_shader_program : ShaderProgram
  framebuffer : Framebuffer
  full_screen_rect : Mesh
  deriving DecidableEq, Repr

/-- `RenderParams::new()`: sets up the global uniform block, compiles the
two shader programs, creates the offscreen framebuffer at
`RENDER_WIDTH x RENDER_HEIGHT`, and builds the full-screen quad with 4
vertices and 6 indices. -/
def RenderParams.new (ext : Externals) : RenderParams :=
  let ubo_global := UniformBuffer.new
  let ubo_global := { ubo_global with fogColor := ⟨5/100, 5/100, 5/100⟩ }
  let ubo_global := { ubo_global with fogDist := (75/10, 15) }
  let ubo_global := { ubo_global with targetAspect := RENDER_ASPECT }
  let ubo_global := { ubo_global with
    renderRes := ((RENDER_WIDTH : ℚ), (RENDER_HEIGHT : ℚ)) }
  let ubo_global := { ubo_global with
    windowAspect := (WINDOW_WIDTH : ℚ) / (WINDOW_HEIGHT : ℚ) }
  let ubo_global := { ubo_global with matProj := ext.projMat }
  { ubo_global := ubo_global
    ps1_shader_program := ShaderProgram.fromVtf ShaderSrc.ps1Source
    blit_shader_program := ShaderProgram.fromVf ShaderSrc.blitSource
    framebuffer := ⟨RENDER_WIDTH, RENDER_HEIGHT⟩
    full_screen_rect :=
      { verts := [1, 1, 0, 1, 1,
                  1, -1, 0, 1, 0,
                  -1, -1, 0, 0, 0,
                  -1, 1, 0, 0, 1]
        indices := [0, 1, 3, 1, 2, 3]
        attribs := [⟨0, 3⟩, ⟨1, 2⟩] } }

/-- ModelManager resource: the `HashMap<String, GltfModel>` is modelled as
an association list with unique keys. -/
structure ModelManager where
  loaded_models : List (String × GltfModel)
  deriving DecidableEq, Repr

/-- `ModelManager::new()`. -/
def ModelManager.new : ModelManager := ⟨[]⟩

/-- `HashMap::get_mut` on the association list. -/
def findEntry : List (String × GltfModel) → String → Option GltfModel
  | [], _ => none
  | (k, v) :: rest, name => if k = name then some v else findEntry rest name

/-- In-place mutation of the entry at a key (models mutating through
`HashMap::get_mut`). -/
def setEntry : List (String × GltfModel) → String → GltfModel → List (String × GltfModel)
  | [], _, _ => []
  | (k, v) :: rest, name, m =>
    if k = name then (k, m) :: rest else (k, v) :: setEntry rest name m

/-- `ModelManager::with_model(name, f)`: if `name` is cached, apply `f` to
the cached model in place; otherwise load it (`GltfModel::from_file`,
modelled by the `loader` parameter; `none` is the load-failure panic),
apply `f`, and insert the result keyed by `name`. -/
def ModelManager.with_model (loader : String → Option GltfModel)
    (mm : ModelManager) (name : String) (f : GltfModel → GltfModel) :
    Option ModelManager :=
  match findEntry mm.loaded_models name with
  | some model => some ⟨setEntry mm.loaded_models name (f model)⟩
  | none =>
    match loader name with
    | none => none
    | some model => some ⟨mm.loaded_models ++ [(name, f model)]⟩

/-- An entity: a record of optional components (bevy attaches zero or one
instance of each component kind per entity). -/
structure Entity where
  position : Option Position
  velocity : Option Velocity
  pitchYaw : Option PitchYaw
  model : Option Model
  cameraComponent : Option CameraComponent
  deriving DecidableEq, Repr

/-- An entity with no components (spawn starting point). -/
def Entity.empty : Entity := ⟨none, none, none, none, none⟩

/-- The bevy `World`: the entity list plus the three resources. -/
structure World where
  entities : List Entity
  time : Time
  renderParams : RenderParams
  modelManager : ModelManager
  deriving DecidableEq, Repr

/-- Whether an entity matches the camera system's query
`(&Position, &PitchYaw, &mut CameraComponent)`. -/
def hasFullCam (e : Entity) : Bool :=
  e.position.isSome && e.pitchYaw.isSome && e.cameraComponent.isSome

/-- The body of the `camera` system for the single matched entity:
`set_pos`, `set_pitch_yaw`, then `update()` (which recomputes the derived
view matrix and forward vector — modelled from the spec by the external
`viewFn`/`fwdFn`). -/
def camTick (ext : Externals) (p : Position) (py : PitchYaw)
    (cam : FpsCamera) : FpsCamera :=
  let cam := { cam with pos := ⟨p.x, p.y, p.z⟩ }
  let cam := { cam with pitch := py.pitch, yaw := py.yaw }
  { cam with view := ext.viewFn cam.pos cam.pitch cam.yaw,
             fwd := ext.fwdFn cam.pitch cam.yaw }

/-- Apply the camera system body to an entity if it matches the query
(leaves all other entities untouched). -/
def camUpdate (ext : Externals) (e : Entity) : Entity :=
  match e.position, e.pitchYaw, e.cameraComponent with
  | some p, some py, some c =>
    { e with cameraComponent := some ⟨camTick ext p py c.camera⟩ }
  | _, _, _ => e

/-- The `camera` system: `query.get_single_mut().expect(..)` succeeds only
when exactly one entity matches `(&Position, &PitchYaw, &mut
CameraComponent)`; it then updates that entity's `FpsCamera`. Since
exactly one entity matches, mapping the guarded per-entity update over the
list updates precisely the matched entity. -/
def cameraSys (ext : Externals) (w : World) : Option World :=
  if w.entities.countP (fun e => hasFullCam e) = 1 then
    some { w with entities := w.entities.map (camUpdate ext) }
  else
    none

/-- The body of the `movement` system for one entity: if it has both
Position and Velocity, `position += velocity * time_delta`. -/
def moveEntity (dt : ℚ) (e : Entity) : Entity :=
  match e.position, e.velocity with
  | some p, some v =>
    { e with position := some ⟨p.x + v.x * dt, p.y + v.y * dt, p.z + v.z * dt⟩ }
  | _, _ => e

/-- The `movement` system: for every entity with Position and Velocity,
`position += velocity * time.time_delta`. -/
def movementSys (w : World) : World :=
  { w with entities := w.entities.map (moveEntity w.time.time_delta) }

/-- One GL-side effect of the render pass, recorded as a trace event. -/
inductive GlCmd where
  | uboUploadChanged : GlCmd
  | bindDrawFb : Framebuffer → GlCmd
  | clearColor : ℚ → ℚ → ℚ → ℚ → GlCmd
  | viewport : ℤ → ℤ → ℤ → ℤ → GlCmd
  | clear : GlCmd
  | enableDepthTest : GlCmd
  | disableDepthTest : GlCmd
  | polygonModeLine : GlCmd
  | polygonModeFill : GlCmd
  | useProgram : ShaderProgram → GlCmd
  | uboSetMatModel : Mat4 → GlCmd
  | setTransform : Mat4 → GlCmd
  | renderModel : String → GlCmd
  | unbindFb : GlCmd
  | bindColorTex : GlCmd
  | drawIndexed : ℕ → GlCmd
  deriving DecidableEq, Repr

/-- The `(&Position, &Model)` query of the render system, in entity-list
order: the drawn entities as (translation, model name) pairs. -/
def drawnModels (w : World) : List (Vec3 × String) :=
  w.entities.filterMap (fun e =>
    match e.position, e.model with
    | some p, some m => some (⟨p.x, p.y, p.z⟩, m.name)
    | _, _ => none)

/-- The per-model loop of the render system: for each drawn entity, write
the identity into the uniform block's model matrix, upload, then
`with_model` sets the cached model's transform to the translation from the
entity's Position and renders it (the model render itself is an external
call recorded as a trace event; per the spec it renders against the
current global uniform state). `none` is the load-failure panic. -/
def renderModels (loader : String → Option GltfModel) :
    List (Vec3 × String) → UniformBuffer → ModelManager →
    Option (UniformBuffer × ModelManager × List GlCmd)
  | [], ubo, mm => some (ubo, mm, [])
  | (p, name) :: rest, ubo, mm =>
    let ubo := { ubo with matModel := Mat4.identity }
    match mm.with_model loader name
        (fun m => { m with transform := Mat4.fromTranslation p }) with
    | none => none
    | some mm =>
      match renderModels loader rest ubo mm with
      | none => none
      | some (ubo2, mm2, tr) =>
        some (ubo2, mm2,
          GlCmd.uboSetMatModel Mat4.identity :: GlCmd.uboUploadChanged ::
          GlCmd.setTransform (Mat4.fromTranslation p) ::
          GlCmd.renderModel name :: tr)

/-- The render system's camera query `Query<&mut CameraComponent>`:
`get_single_mut` succeeds only when exactly one entity has a
CameraComponent (Position/PitchYaw are not part of this query). -/
def getSingleCam (w : World) : Option FpsCamera :=
  match w.entities.filterMap (fun e => e.cameraComponent) with
  | [c] => some c.camera
  | _ => none

/-- The offscreen-pass setup commands of the render system: bind the
offscreen framebuffer, clear, set the viewport to the fixed render
resolution, enable depth test (optionally wireframe), bind the scene
shader. -/
def preTrace (rp : RenderParams) : List GlCmd :=
  [GlCmd.uboUploadChanged,
   GlCmd.bindDrawFb rp.framebuffer,
   GlCmd.clearColor 0 0 0 1,
   GlCmd.viewport 0 0 RENDER_WIDTH RENDER_HEIGHT,
   GlCmd.clear,
   GlCmd.enableDepthTest] ++
  (if WIREFRAME_MODE then [GlCmd.polygonModeLine] else []) ++
  [GlCmd.useProgram rp.ps1_shader_program]

/-- The blit-pass commands of the render system: disable depth test,
restore the full-window viewport and fill mode, unbind the offscreen
target, bind its color texture, bind the blit shader, draw the two-triangle
full-screen quad with 6 indices. -/
def postTrace (rp : RenderParams) : List GlCmd :=
  [GlCmd.disableDepthTest,
   GlCmd.viewport 0 0 WINDOW_WIDTH WINDOW_HEIGHT,
   GlCmd.polygonModeFill,
   GlCmd.unbindFb,
   GlCmd.bindColorTex,
   GlCmd.useProgram rp.blit_shader_program,
   GlCmd.drawIndexed 6]

/-- The `render` system: upload sim time and the camera's view matrix into
the uniform block, run the offscreen pass over all drawn entities, then
blit to the window. Returns the updated world (resources only — the entity
list is returned untouched) and the GL trace. `none` models the
`expect`/panic aborts. -/
def render (loader : String → Option GltfModel)
    (w : World) : Option (World × List GlCmd) :=
  match getSingleCam w with
  | none => none
  | some cam =>
    let ubo := w.renderParams.ubo_global
    let ubo := { ubo with simTime := w.time.time }
    let ubo := { ubo with matView := cam.view }
    match renderModels loader (drawnModels w) ubo w.modelManager with
    | none => none
    | some (ubo2, mm2, trM) =>
      some ({ w with
                renderParams := { w.renderParams with ubo_global := ubo2 }
                modelManager := mm2 },
            preTrace w.renderParams ++ trM ++ postTrace w.renderParams)

/-- The per-frame input sample the main loop reads from the window
collaborator: the mouse delta, whether forward is held, and the elapsed
wall-clock frame time. -/
structure FrameInput where
  mouseDx : ℚ
  mouseDy : ℚ
  forwardHeld : Bool
  frameTime : ℚ
  deriving DecidableEq, Repr

/-- The camera-input block of the main loop, acting on the camera entity
obtained by `world.entity_mut(camera_id)`: `pitch -= dy * CAM_LOOK_SPEED`,
`yaw -= dx * CAM_LOOK_SPEED`, and if forward is held, `position += forward
* CAM_FLY_SPEED` using the camera's stored forward vector. The `unwrap`s
are modelled by `Option`. -/
def inputUpdateEntity (inp : FrameInput) (e : Entity) : Option Entity :=
  match e.pitchYaw with
  | none => none
  | some py =>
    let e := { e with pitchYaw := some ⟨py.pitch - inp.mouseDy * CAM_LOOK_SPEED,
                                       py.yaw - inp.mouseDx * CAM_LOOK_SPEED⟩ }
    if inp.forwardHeld then
      match e.cameraComponent, e.position with
      | some c, some p =>
        let f := c.camera.fwd
        some { e with position := some ⟨p.x + f.x * CAM_FLY_SPEED,
                                        p.y + f.y * CAM_FLY_SPEED,
                                        p.z + f.z * CAM_FLY_SPEED⟩ }
      | _, _ => none
    else
      some e

/-- The camera-input block applied to the world at the camera entity's
index. -/
def inputUpdate (camIdx : ℕ) (inp : FrameInput) (w : World) : Option World :=
  match w.entities[camIdx]? with
  | none => none
  | some e =>
    (inputUpdateEntity inp e).map
      (fun e2 => { w with entities := w.entities.set camIdx e2 })

/-- The fixed-timestep inner loop of `main`, with the world threaded
through: while `accumulator >= FIXED_UPDATE_TIME`, set the Time resource to
`(sim_time, FIXED_UPDATE_TIME)`, run the update stage (movement and camera;
the stage is declared parallel with no fixed order — the model runs
movement then camera), then consume one tick of accumulated time. -/
def runTicks (ext : Externals) (w : World) (simTime acc : ℚ) :
    Option (World × ℚ × ℚ) :=
  if FIXED_UPDATE_TIME ≤ acc then
    let w2 := { w with time := ⟨simTime, FIXED_UPDATE_TIME⟩ }
    match cameraSys ext (movementSys w2) with
    | none => none
    | some w3 =>
      runTicks ext w3 (simTime + FIXED_UPDATE_TIME) (acc - FIXED_UPDATE_TIME)
  else
    some (w, simTime, acc)
termination_by (⌊acc / FIXED_UPDATE_TIME⌋).toNat
decreasing_by
  have hdt : 0 < FIXED_UPDATE_TIME := FIXED_UPDATE_TIME_pos
  have h1 : (1 : ℚ) ≤ acc / FIXED_UPDATE_TIME := (one_le_div hdt).mpr (by assumption)
  have hfl : ⌊(acc - FIXED_UPDATE_TIME) / FIXED_UPDATE_TIME⌋
      = ⌊acc / FIXED_UPDATE_TIME⌋ - 1 := by
    have hsub : (acc - FIXED_UPDATE_TIME) / FIXED_UPDATE_TIME
        = acc / FIXED_UPDATE_TIME - 1 := by field_simp
    rw [hsub, Int.floor_sub_one]
  have hge : (1 : ℤ) ≤ ⌊acc / FIXED_UPDATE_TIME⌋ := by
    exact_mod_cast Int.le_floor.mpr (by exact_mod_cast h1)
  rw [hfl]
  omega

/-- The mutable state of the main loop between frames. -/
structure LoopState where
  w : World
  simTime : ℚ
  accumulator : ℚ
  camIdx : ℕ
  deriving Repr

/-- One iteration of the main loop (one displayed frame): camera input,
the fixed-timestep tick loop, then exactly one render pass. -/
def runFrame (ext : Externals) (loader : String → Option GltfModel)
    (inp : FrameInput) (st : LoopState) : Option (LoopState × List GlCmd) :=
  (inputUpdate st.camIdx inp st.w).bind fun w1 =>
  (runTicks ext w1 st.simTime (st.accumulator + inp.frameTime)).bind fun r =>
  (render loader r.1).bind fun q =>
  some ({ st with w := q.1, simTime := r.2.1, accumulator := r.2.2 }, q.2)

/-- A run of consecutive frames (traces discarded). -/
def runFrames (ext : Externals) (loader : String → Option GltfModel) :
    List FrameInput → LoopState → Option LoopState
  | [], st => some st
  | inp :: rest, st =>
    match runFrame ext loader inp st with
    | none => none
    | some (st2, _) => runFrames ext loader rest st2

/-- The world as `main` spawns it: the camera entity (Position `(0,3,10)`,
PitchYaw `(-0.1, 0)`, a fresh `FpsCamera`), the world entity, the four ball
entities, and the three resources. -/
def initialWorld (ext : Externals) : World :=
  { entities :=
      [{ Entity.empty with
           position := some ⟨0, 3, 10⟩
           pitchYaw := some ⟨-1/10, 0⟩
           cameraComponent := some ⟨ext.newCam⟩ },
       { Entity.empty with
           position := some ⟨0, 0, 0⟩
           velocity := some ⟨0, 0, 0⟩
           model := some ⟨"resources/models/demo_scene.glb"⟩ },
       { Entity.empty with
           position := some ⟨0, 0, 0⟩
           velocity := some ⟨0, 1/2, 0⟩
           model := some ⟨"resources/models/fire_orb.glb"⟩ },
       { Entity.empty with
           position := some ⟨0, 0, 20⟩
           velocity := some ⟨0, 1/2, 0⟩
           model := some ⟨"resources/models/fire_orb.glb"⟩ },
       { Entity.empty with
           position := some ⟨-10, 0, 10⟩
           velocity := some ⟨0, 1/2, 0⟩
           model := some ⟨"resources/models/fire_orb.glb"⟩ },
       { Entity.empty with
           position := some ⟨10, 0, 10⟩
           velocity := some ⟨0, 1/2, 0⟩
           model := some ⟨"resources/models/fire_orb.glb"⟩ }]
    time := Time.default
    renderParams := RenderParams.new ext
    modelManager := ModelManager.new }

/-- The main-loop state on entry to the first frame: `sim_time = 0`,
`accumulator = 0`, camera entity at index 0. -/
def initialState (ext : Externals) : LoopState :=
  { w := initialWorld ext, simTime := 0, accumulator := 0, camIdx := 0 }

theorem findEntry_setEntry (l : List (String × GltfModel)) (name : String)
    (m : GltfModel) :
    findEntry (setEntry l name m) name = (findEntry l name).map (fun _ => m) := by
  induction l with
  | nil => simp [findEntry, setEntry]
  | cons kv rest ih =>
    obtain ⟨k, v⟩ := kv
    by_cases hk : k = name
    · simp [findEntry, setEntry, hk]
    · simp [findEntry, setEntry, hk, ih]

theorem findEntry_setEntry_ne (l : List (String × GltfModel))
    (name other : String) (m : GltfModel) (h : name ≠ other) :
    findEntry (setEntry l name m) other = findEntry l other := by
  induction l with
  | nil => simp [findEntry, setEntry]
  | cons kv rest ih =>
    obtain ⟨k, v⟩ := kv
    by_cases hk : k = name
    · subst hk
      simp [findEntry, setEntry, h]
    · simp [findEntry, setEntry, hk, ih]

theorem findEntry_append (l : List (String × GltfModel)) (name k : String)
    (m : GltfModel) :
    findEntry (l ++ [(k, m)]) name =
      match findEntry l name with
      | some v => some v
      | none => if k = name then some m else none := by
  induction l with
  | nil => simp [findEntry]
  | cons kv rest ih =>
    obtain ⟨k2, v⟩ := kv
    by_cases hk : k2 = name
    · simp [findEntry, hk]
    · simp [findEntry, hk, ih]

/-- After a successful `with_model` call, the cache holds an entry at
`name` whose value is the mutator applied to either the previously cached
model or the freshly loaded one. -/
theorem with_model_result (L : String → Option GltfModel) (mm mm1 : ModelManager)
    (name : String) (f : GltfModel → GltfModel)
    (h : mm.with_model L name f = some mm1) :
    ∃ m1, findEntry mm1.loaded_models name = some m1 ∧
      (∀ m0, findEntry mm.loaded_models name = some m0 → m1 = f m0) ∧
      (findEntry mm.loaded_models name = none →
        ∃ m0, L name = some m0 ∧ m1 = f m0) := by
  unfold ModelManager.with_model at h
  cases hfind : findEntry mm.loaded_models name with
  | some m0 =>
    rw [hfind] at h
    refine ⟨f m0, ?_, ?_, ?_⟩
    · cases h
      simp [findEntry_setEntry, hfind]
    · intro m0b hb
      cases hb
      rfl
    · intro hnone
      cases hnone
  | none =>
    rw [hfind] at h
    cases hL : L name with
    | none => rw [hL] at h; cases h
    | some m0 =>
      rw [hL] at h
      cases h
      refine ⟨f m0, ?_, ?_, fun _ => ⟨m0, rfl, rfl⟩⟩
      · simp [findEntry_append, hfind]
      · intro m0b hb
        cases hb

/-- A `with_model` call on a name that is already cached never consults
the loader, and mutates the cached entry in place. -/
theorem with_model_cached (L2 : String → Option GltfModel) (mm1 : ModelManager)
    (name : String) (g : GltfModel → GltfModel) (m1 : GltfModel)
    (h : findEntry mm1.loaded_models name = some m1) :
    mm1.with_model L2 name g = some ⟨setEntry mm1.loaded_models name (g m1)⟩ ∧
    findEntry (setEntry mm1.loaded_models name (g m1)) name = some (g m1) := by
  constructor
  · unfold ModelManager.with_model
    rw [h]
  · simp [findEntry_setEntry, h]

/-- C5: calling `with_model` twice with the same name performs exactly one
load — the second call succeeds for every loader, including one that always
fails, so it loads nothing — and the second call's mutator is applied to
the model produced by the first call's mutator: mutations made by the first
call are visible to the second. -/
theorem with_model_loads_once (L L2 : String → Option GltfModel)
    (mm mm1 : ModelManager) (name : String) (f g : GltfModel → GltfModel)
    (h : mm.with_model L name f = some mm1) :
    ∃ m1, findEntry mm1.loaded_models name = some m1 ∧
      (∀ m0, findEntry mm.loaded_models name = some m0 → m1 = f m0) ∧
      (findEntry mm.loaded_models name = none →
        ∃ m0, L name = some m0 ∧ m1 = f m0) ∧
      ∃ mm2, mm1.with_model L2 name g = some mm2 ∧
        findEntry mm2.loaded_models name = some (g m1) := by
  obtain ⟨m1, hm1, hcached, hloaded⟩ := with_model_result L mm mm1 name f h
  obtain ⟨hcall, hfind⟩ := with_model_cached L2 mm1 name g m1 hm1
  exact ⟨m1, hm1, hcached, hloaded, ⟨setEntry mm1.loaded_models name (g m1)⟩,
    hcall, hfind⟩

/-- Witness for C5: loading "resources/models/fire_orb.glb" into an empty
cache with a mutator that sets a translation, then calling again with a
mutator that resets the transform to the identity. -/
theorem with_model_loads_once_witness :
    ModelManager.with_model (fun _ => some ⟨Mat4.identity⟩) ModelManager.new
        "resources/models/fire_orb.glb"
        (fun m => { m with transform := Mat4.fromTranslation ⟨1, 2, 3⟩ })
      = some ⟨[("resources/models/fire_orb.glb",
                ⟨Mat4.fromTranslation ⟨1, 2, 3⟩⟩)]⟩ ∧
    ∃ m1, findEntry [("resources/models/fire_orb.glb",
          (⟨Mat4.fromTranslation ⟨1, 2, 3⟩⟩ : GltfModel))]
          "resources/models/fire_orb.glb" = some m1 ∧
      (∀ m0, findEntry (ModelManager.new).loaded_models
          "resources/models/fire_orb.glb" = some m0 →
        m1 = { m0 with transform := Mat4.fromTranslation ⟨1, 2, 3⟩ }) ∧
      (findEntry (ModelManager.new).loaded_models
          "resources/models/fire_orb.glb" = none →
        ∃ m0, (fun (_ : String) => some (⟨Mat4.identity⟩ : GltfModel))
            "resources/models/fire_orb.glb" = some m0 ∧
          m1 = { m0 with transform := Mat4.fromTranslation ⟨1, 2, 3⟩ }) ∧
      ∃ mm2, ModelManager.with_model (fun _ => none)
          ⟨[("resources/models/fire_orb.glb",
             ⟨Mat4.fromTranslation ⟨1, 2, 3⟩⟩)]⟩
          "resources/models/fire_orb.glb"
          (fun m => { m with transform := Mat4.identity }) = some mm2 ∧
        findEntry mm2.loaded_models "resources/models/fire_orb.glb"
          = some { m1 with transform := Mat4.identity } :=
  ⟨by decide,
   with_model_loads_once (fun _ => some ⟨Mat4.identity⟩) (fun _ => none)
     ModelManager.new ⟨[("resources/models/fire_orb.glb",
       ⟨Mat4.fromTranslation ⟨1, 2, 3⟩⟩)]⟩
     "resources/models/fire_orb.glb"
     (fun m => { m with transform := Mat4.fromTranslation ⟨1, 2, 3⟩ })
     (fun m => { m with transform := Mat4.identity })
     (by decide)⟩

/-- A default camera value used for concrete instantiations. -/
def camDefault : FpsCamera := ⟨⟨0, 0, 0⟩, 0, 0, Mat4.identity, ⟨0, 0, 0⟩⟩

/-- A concrete choice of the external functions (constant view matrix). -/
def ext0 : Externals :=
  { viewFn := fun _ _ _ => Mat4.identity
    fwdFn := fun _ _ => ⟨0, 0, 0⟩
    projMat := Mat4.identity
    newCam := camDefault }

/-- A concrete choice of the external functions whose view derivation
depends on the camera position (as the real one does). -/
def extT : Externals :=
  { viewFn := fun p _ _ => Mat4.fromTranslation p
    fwdFn := fun _ _ => ⟨0, 0, 0⟩
    projMat := Mat4.identity
    newCam := camDefault }

/-- A loader that always succeeds. -/
def L1 : String → Option GltfModel := fun _ => some ⟨Mat4.identity⟩

/-- A world whose single entity carries only a CameraComponent: it has no
Position and no PitchYaw, so zero entities carry the full camera set. -/
def WCamOnly : World :=
  { entities := [{ Entity.empty with cameraComponent := some ⟨camDefault⟩ }]
    time := Time.default
    renderParams := RenderParams.new ext0
    modelManager := ModelManager.new }

/-- A world with no entities at all. -/
def WEmpty : World :=
  { entities := []
    time := Time.default
    renderParams := RenderParams.new ext0
    modelManager := ModelManager.new }

theorem length_filterMap_cam (l : List Entity) :
    (l.filterMap (fun e => e.cameraComponent)).length
      = l.countP (fun e => e.cameraComponent.isSome) := by
  induction l with
  | nil => simp
  | cons e rest ih =>
    cases hc : e.cameraComponent <;>
      simp [List.countP_cons, hc, ih]

theorem getSingleCam_eq_none (w : World)
    (h : w.entities.countP (fun e => e.cameraComponent.isSome) ≠ 1) :
    getSingleCam w = none := by
  unfold getSingleCam
  rw [← length_filterMap_cam] at h
  cases hl : w.entities.filterMap (fun e => e.cameraComponent) with
  | nil => rfl
  | cons c rest =>
    cases rest with
    | nil => rw [hl] at h; simp at h
    | cons c2 rest2 => rfl

/-- Counterexample to C4 as stated: in `WCamOnly` zero entities carry the
full camera component set (Position + PitchYaw + CameraComponent), yet the
render routine's single-camera query succeeds — its query is over
CameraComponent alone, so it silently picks the partial candidate instead
of failing. -/
theorem camera_single_query_counterexample :
    WCamOnly.entities.countP (fun e => hasFullCam e) = 0 ∧
    (render (fun _ => none) WCamOnly).isSome = true := by
  constructor
  · decide
  · decide

/-- C4 (amended): each camera-dependent routine fails exactly when its own
query's component set is matched by a number of entities other than one.
The `camera` system queries the full set (Position, PitchYaw,
CameraComponent) and fails iff the count of full-set entities differs from
one; the `render` system queries CameraComponent alone, and whenever the
count of CameraComponent-bearing entities differs from one it fails
(it does not silently pick a candidate of its own query). -/
theorem camera_single_query_amended (ext : Externals)
    (L : String → Option GltfModel) (w : World) :
    (cameraSys ext w = none ↔
      w.entities.countP (fun e => hasFullCam e) ≠ 1) ∧
    (w.entities.countP (fun e => e.cameraComponent.isSome) ≠ 1 →
      render L w = none) := by
  constructor
  · unfold cameraSys
    by_cases hc : w.entities.countP (fun e => hasFullCam e) = 1
    · simp [hc]
    · simp [hc]
  · intro h
    unfold render
    rw [getSingleCam_eq_none w h]

/-- Witness for C4 (amended): in the empty world both failure conditions
hold, and both routines indeed fail. -/
theorem camera_single_query_amended_witness :
    cameraSys ext0 WEmpty = none ∧ render (fun _ => none) WEmpty = none :=
  ⟨(camera_single_query_amended ext0 (fun _ => none) WEmpty).1.mpr (by decide),
   (camera_single_query_amended ext0 (fun _ => none) WEmpty).2 (by decide)⟩

/-- Decomposition of a successful render pass into its parts. -/
theorem render_eq (L : String → Option GltfModel) (w : World)
    (w' : World) (tr : List GlCmd) (h : render L w = some (w', tr)) :
    ∃ cam ubo2 mm2 trM,
      getSingleCam w = some cam ∧
      renderModels L (drawnModels w)
        { w.renderParams.ubo_global with
            simTime := w.time.time, matView := cam.view }
        w.modelManager = some (ubo2, mm2, trM) ∧
      w' = { w with
               renderParams := { w.renderParams with ubo_global := ubo2 }
               modelManager := mm2 } ∧
      tr = preTrace w.renderParams ++ trM ++ postTrace w.renderParams := by
  unfold render at h
  split at h
  · cases h
  · rename_i cam hcam
    dsimp only at h
    split at h
    · cases h
    · rename_i ubo2 mm2 trM hrm
      cases h
      exact ⟨cam, ubo2, mm2, trM, hcam, hrm, rfl, rfl⟩

/-- C6: the render pass never mutates any entity component — the entity
list (hence every Position, Velocity, PitchYaw, Model and CameraComponent)
after a successful render pass equals the entity list before it. -/
theorem render_never_mutates_components (L : String → Option GltfModel)
    (w w' : World) (tr : List GlCmd) (h : render L w = some (w', tr)) :
    w'.entities = w.entities := by
  obtain ⟨cam, ubo2, mm2, trM, _, _, hw, _⟩ := render_eq L w w' tr h
  rw [hw]

/-- A world with one full camera entity and two model entities sharing one
model name, at distinct positions. -/
def WBalls : World :=
  { entities :=
      [{ Entity.empty with
           position := some ⟨0, 3, 10⟩
           pitchYaw := some ⟨-1/10, 0⟩
           cameraComponent := some ⟨camDefault⟩ },
       { Entity.empty with
           position := some ⟨1, 2, 3⟩
           model := some ⟨"resources/models/fire_orb.glb"⟩ },
       { Entity.empty with
           position := some ⟨4, 5, 6⟩
           model := some ⟨"resources/models/fire_orb.glb"⟩ }]
    time := Time.default
    renderParams := RenderParams.new ext0
    modelManager := ModelManager.new }

/-- Witness for C6: on a concrete world with a camera and two model
entities, rendering leaves the entity list unchanged. -/
theorem render_never_mutates_components_witness :
    (render L1 WBalls).map (fun q => q.1.entities) = some WBalls.entities := by
  have hs : (render L1 WBalls).isSome = true := by decide
  obtain ⟨q, hq⟩ := Option.isSome_iff_exists.mp hs
  rw [hq, Option.map_some']
  rw [render_never_mutates_components L1 WBalls q.1 q.2 hq]

/-- Whether a GL command is a viewport command. -/
def isViewportCmd : GlCmd → Bool
  | GlCmd.viewport _ _ _ _ => true
  | _ => false

/-- Whether a GL command is an indexed draw. -/
def isDrawIndexedCmd : GlCmd → Bool
  | GlCmd.drawIndexed _ => true
  | _ => false

/-- The scene-draw section of the trace contains no viewport changes and
no indexed draws (the models render through the external model renderer,
not through the full-screen quad path). -/
theorem renderModels_scene_trace (L : String → Option GltfModel) :
    ∀ (es : List (Vec3 × String)) (ubo : UniformBuffer) (mm : ModelManager)
      (r : UniformBuffer × ModelManager × List GlCmd),
      renderModels L es ubo mm = some r →
      r.2.2.filter isViewportCmd = [] ∧ r.2.2.filter isDrawIndexedCmd = [] := by
  intro es
  induction es with
  | nil =>
    intro ubo mm r h
    cases h
    exact ⟨rfl, rfl⟩
  | cons pn rest ih =>
    intro ubo mm r h
    obtain ⟨p, name⟩ := pn
    dsimp only [renderModels] at h
    split at h
    · cases h
    · rename_i mm1 hwm
      split at h
      · cases h
      · rename_i ubo2 mm2 trR hrm
        cases h
        obtain ⟨ih1, ih2⟩ := ih _ _ _ hrm
        refine ⟨?_, ?_⟩ <;>
          simp [List.filter, isViewportCmd, isDrawIndexedCmd, ih1, ih2]

/-- C8: the offscreen render target is created at exactly
`RENDER_WIDTH x RENDER_HEIGHT` (independent of the window constants), the
trace of every successful render pass sets exactly two viewports — the
offscreen pass at the fixed render resolution and the blit pass covering
the full window — and performs exactly one indexed draw, with exactly 6
indices (the full-screen quad). -/
theorem offscreen_size_and_blit (ext : Externals)
    (L : String → Option GltfModel) (w w' : World) (tr : List GlCmd)
    (h : render L w = some (w', tr)) :
    (RenderParams.new ext).framebuffer = ⟨RENDER_WIDTH, RENDER_HEIGHT⟩ ∧
    tr.filter isViewportCmd =
      [GlCmd.viewport 0 0 RENDER_WIDTH RENDER_HEIGHT,
       GlCmd.viewport 0 0 WINDOW_WIDTH WINDOW_HEIGHT] ∧
    tr.filter isDrawIndexedCmd = [GlCmd.drawIndexed 6] := by
  obtain ⟨cam, ubo2, mm2, trM, hcam, hrm, hw, htr⟩ := render_eq L w w' tr h
  obtain ⟨h1, h2⟩ := renderModels_scene_trace L (drawnModels w) _ _ _ hrm
  subst htr
  refine ⟨rfl, ?_, ?_⟩ <;>
    simp [preTrace, postTrace, List.filter_append, h1, h2, isViewportCmd,
      isDrawIndexedCmd, WIREFRAME_MODE, List.filter]

/-- Witness for C8: the concrete world `WBalls` renders with exactly the
two expected viewports and one six-index draw. -/
theorem offscreen_size_and_blit_witness :
    (render L1 WBalls).map
        (fun q => (q.2.filter isViewportCmd, q.2.filter isDrawIndexedCmd))
      = some ([GlCmd.viewport 0 0 RENDER_WIDTH RENDER_HEIGHT,
               GlCmd.viewport 0 0 WINDOW_WIDTH WINDOW_HEIGHT],
              [GlCmd.drawIndexed 6]) ∧
    (RenderParams.new ext0).framebuffer = ⟨RENDER_WIDTH, RENDER_HEIGHT⟩ := by
  have hs : (render L1 WBalls).isSome = true := by decide
  obtain ⟨q, hq⟩ := Option.isSome_iff_exists.mp hs
  obtain ⟨hfb, hvp, hdr⟩ := offscreen_size_and_blit ext0 L1 WBalls q.1 q.2 hq
  rw [hq]
  exact ⟨by simp [hvp, hdr], hfb⟩

/-- Each drawn entity contributes its four-event block to the scene-draw
trace: identity into the uniform block's model matrix, upload, the
translation-only matrix into the cached model's internal transform, then
the model render. -/
theorem renderModels_block_infix (L : String → Option GltfModel) :
    ∀ (es : List (Vec3 × String)) (ubo : UniformBuffer) (mm : ModelManager)
      (r : UniformBuffer × ModelManager × List GlCmd),
      renderModels L es ubo mm = some r →
      ∀ p nm, (p, nm) ∈ es →
      [GlCmd.uboSetMatModel Mat4.identity, GlCmd.uboUploadChanged,
       GlCmd.setTransform (Mat4.fromTranslation p),
       GlCmd.renderModel nm] <:+: r.2.2 := by
  intro es
  induction es with
  | nil =>
    intro ubo mm r h p nm hmem
    cases hmem
  | cons pn rest ih =>
    intro ubo mm r h p nm hmem
    obtain ⟨q, n⟩ := pn
    dsimp only [renderModels] at h
    split at h
    · cases h
    · rename_i mm1 hwm
      split at h
      · cases h
      · rename_i ubo2 mm2 trR hrm
        cases h
        rcases List.mem_cons.mp hmem with heq | hmem2
        · cases heq
          exact ⟨[], trR, by simp⟩
        · have hinf := ih _ _ _ hrm p nm hmem2
          exact hinf.trans ⟨[GlCmd.uboSetMatModel Mat4.identity,
            GlCmd.uboUploadChanged,
            GlCmd.setTransform (Mat4.fromTranslation q),
            GlCmd.renderModel n], [], by simp⟩

/-- After a nonempty scene draw, the uniform block's model matrix holds the
identity (the last value the loop wrote into it). -/
theorem renderModels_matModel (L : String → Option GltfModel) :
    ∀ (es : List (Vec3 × String)) (ubo : UniformBuffer) (mm : ModelManager)
      (r : UniformBuffer × ModelManager × List GlCmd),
      renderModels L es ubo mm = some r → es ≠ [] →
      r.1.matModel = Mat4.identity := by
  intro es
  induction es with
  | nil => intro ubo mm r h hne; exact absurd rfl hne
  | cons pn rest ih =>
    intro ubo mm r h hne
    obtain ⟨q, n⟩ := pn
    dsimp only [renderModels] at h
    split at h
    · cases h
    · rename_i mm1 hwm
      split at h
      · cases h
      · rename_i ubo2 mm2 trR hrm
        cases h
        cases rest with
        | nil =>
          cases hrm
          rfl
        | cons q2 rest2 =>
          have hx := ih _ _ _ hrm (by simp)
          exact hx

/-- Counterexample to C3 as stated: in `WBalls` the entities at positions
`(1,2,3)` and `(4,5,6)` are drawn, yet the render pass never writes either
translation-only matrix into RenderState's uniform block — it writes the
identity matrix there, once per entity (the translation goes to the cached
model's internal transform instead). -/
theorem scene_draw_model_matrix_counterexample :
    (render L1 WBalls).map
        (fun q =>
          (q.2.count (GlCmd.uboSetMatModel (Mat4.fromTranslation ⟨1, 2, 3⟩)),
           q.2.count (GlCmd.uboSetMatModel (Mat4.fromTranslation ⟨4, 5, 6⟩)),
           q.2.count (GlCmd.uboSetMatModel Mat4.identity)))
      = some (0, 0, 2) := by
  decide

/-- C3 (amended): for every drawn entity, the render pass writes the
IDENTITY matrix into RenderState's uniform block's model-matrix field and
uploads it, and hands the translation-only matrix computed from the
entity's Position to the cached model via `set_transform`, before
commanding the model to render; after the pass the uniform block's model
matrix is the identity. -/
theorem scene_draw_model_matrix (L : String → Option GltfModel)
    (w w' : World) (tr : List GlCmd) (p : Vec3) (nm : String)
    (h : render L w = some (w', tr)) (hmem : (p, nm) ∈ drawnModels w) :
    w'.renderParams.ubo_global.matModel = Mat4.identity ∧
    [GlCmd.uboSetMatModel Mat4.identity, GlCmd.uboUploadChanged,
     GlCmd.setTransform (Mat4.fromTranslation p),
     GlCmd.renderModel nm] <:+: tr := by
  obtain ⟨cam, ubo2, mm2, trM, hcam, hrm, hw, htr⟩ := render_eq L w w' tr h
  constructor
  · rw [hw]
    exact renderModels_matModel L (drawnModels w) _ _ _ hrm
      (by intro hnil; rw [hnil] at hmem; cases hmem)
  · have hblock := renderModels_block_infix L (drawnModels w) _ _ _ hrm p nm hmem
    rw [htr]
    exact hblock.trans ⟨preTrace w.renderParams, postTrace w.renderParams,
      by simp⟩

/-- Witness for C3 (amended): after rendering `WBalls` the uniform block's
model matrix is the identity. -/
theorem scene_draw_model_matrix_witness :
    (render L1 WBalls).map (fun q => q.1.renderParams.ubo_global.matModel)
      = some Mat4.identity := by
  have hs : (render L1 WBalls).isSome = true := by decide
  obtain ⟨q, hq⟩ := Option.isSome_iff_exists.mp hs
  rw [hq, Option.map_some']
  have hmem : ((⟨1, 2, 3⟩ : Vec3), "resources/models/fire_orb.glb")
      ∈ drawnModels WBalls := by decide
  exact congrArg some
    (scene_draw_model_matrix L1 WBalls q.1 q.2 ⟨1, 2, 3⟩
      "resources/models/fire_orb.glb" hq hmem).1

/-- The translation of the last entity in query order whose model name is
`nm`, if any entity refers to `nm`. -/
def lastDrawnAt (w : World) (nm : String) : Option Vec3 :=
  (((drawnModels w).filter (fun q => decide (q.2 = nm))).getLast?).map
    (fun q => q.1)

/-- A `with_model` call at one name leaves every other name's entry
unchanged. -/
theorem with_model_preserves (L : String → Option GltfModel)
    (mm mm1 : ModelManager) (n : String) (f : GltfModel → GltfModel)
    (nm : String) (h : mm.with_model L n f = some mm1) (hne : n ≠ nm) :
    findEntry mm1.loaded_models nm = findEntry mm.loaded_models nm := by
  unfold ModelManager.with_model at h
  cases hfe : findEntry mm.loaded_models n with
  | some m0 =>
    rw [hfe] at h
    cases h
    exact findEntry_setEntry_ne _ n nm _ hne
  | none =>
    rw [hfe] at h
    cases hL : L n with
    | none => rw [hL] at h; cases h
    | some m0 =>
      rw [hL] at h
      cases h
      cases hf : findEntry mm.loaded_models nm <;>
        simp [findEntry_append, hf, hne]

/-- After a successful `with_model` call the entry at the called name is
the mutator applied to some model. -/
theorem with_model_entry (L : String → Option GltfModel)
    (mm mm1 : ModelManager) (n : String) (f : GltfModel → GltfModel)
    (h : mm.with_model L n f = some mm1) :
    ∃ m0, findEntry mm1.loaded_models n = some (f m0) := by
  obtain ⟨m1, hfind, hc, hl⟩ := with_model_result L mm mm1 n f h
  cases hfe : findEntry mm.loaded_models n with
  | some m0 => exact ⟨m0, by rw [hfind, hc m0 hfe]⟩
  | none =>
    obtain ⟨m0, _, hm1⟩ := hl hfe
    exact ⟨m0, by rw [hfind, hm1]⟩

/-- The scene-draw loop never touches cache entries for names it does not
draw. -/
theorem renderModels_preserves (L : String → Option GltfModel) :
    ∀ (es : List (Vec3 × String)) (ubo : UniformBuffer) (mm : ModelManager)
      (r : UniformBuffer × ModelManager × List GlCmd),
      renderModels L es ubo mm = some r →
      ∀ nm, (∀ q ∈ es, q.2 ≠ nm) →
      findEntry r.2.1.loaded_models nm = findEntry mm.loaded_models nm := by
  intro es
  induction es with
  | nil =>
    intro ubo mm r h nm _
    cases h
    rfl
  | cons pn rest ih =>
    intro ubo mm r h nm hall
    obtain ⟨q, n⟩ := pn
    dsimp only [renderModels] at h
    split at h
    · cases h
    · rename_i mm1 hwm
      split at h
      · cases h
      · rename_i ubo2 mm2 trR hrm
        cases h
        have hpres := ih _ _ _ hrm nm (fun q2 hq2 => hall q2 (List.mem_cons_of_mem _ hq2))
        rw [hpres]
        exact with_model_preserves L mm mm1 n _ nm hwm
          (hall (q, n) (List.mem_cons_self _ _))

/-- After the scene-draw loop, the cache entry for a drawn name holds the
transform of the LAST entity with that name, in query order. -/
theorem renderModels_last_transform (L : String → Option GltfModel) :
    ∀ (es : List (Vec3 × String)) (ubo : UniformBuffer) (mm : ModelManager)
      (r : UniformBuffer × ModelManager × List GlCmd),
      renderModels L es ubo mm = some r →
      ∀ nm p,
      ((es.filter (fun q => decide (q.2 = nm))).getLast?).map (fun q => q.1)
        = some p →
      ∃ m, findEntry r.2.1.loaded_models nm = some m ∧
        m.transform = Mat4.fromTranslation p := by
  intro es
  induction es with
  | nil =>
    intro ubo mm r h nm p hlast
    simp at hlast
  | cons pn rest ih =>
    intro ubo mm r h nm p hlast
    obtain ⟨q, n⟩ := pn
    dsimp only [renderModels] at h
    split at h
    · cases h
    · rename_i mm1 hwm
      split at h
      · cases h
      · rename_i ubo2 mm2 trR hrm
        cases h
        cases hflt : rest.filter (fun q2 => decide (q2.2 = nm)) with
        | cons c cs =>
          have hlast2 :
              ((rest.filter (fun q2 => decide (q2.2 = nm))).getLast?).map
                (fun q2 => q2.1) = some p := by
            rw [List.filter_cons] at hlast
            split at hlast
            · rw [hflt] at hlast ⊢
              rwa [List.getLast?_cons_cons] at hlast
            · exact hlast
          have hres := ih _ _ _ hrm nm p hlast2
          exact hres
        | nil =>
          have hnone : ∀ q2 ∈ rest, q2.2 ≠ nm := by
            intro q2 hq2 heq
            have := List.filter_eq_nil_iff.mp hflt q2 hq2
            simp [heq] at this
          rw [List.filter_cons, hflt] at hlast
          split at hlast
          · rename_i hpred
            have hn : n = nm := by simpa using hpred
            simp at hlast
            subst hlast
            subst hn
            have hpres := renderModels_preserves L rest _ _ _ hrm n hnone
            obtain ⟨m0, hentry⟩ := with_model_entry L mm mm1 n _ hwm
            refine ⟨{ m0 with transform := Mat4.fromTranslation q }, ?_, rfl⟩
            rw [hpres]
            exact hentry
          · simp at hlast

/-- C10: all entities sharing one model name render through the single
cached model instance, whose internal transform is overwritten once per
such entity in query iteration order; after the pass the cached model's
transform is the translation of the last such entity iterated. -/
theorem shared_model_instance (L : String → Option GltfModel)
    (w w' : World) (tr : List GlCmd) (nm : String) (p : Vec3)
    (h : render L w = some (w', tr)) (hl : lastDrawnAt w nm = some p) :
    ∃ m, findEntry w'.modelManager.loaded_models nm = some m ∧
      m.transform = Mat4.fromTranslation p := by
  obtain ⟨cam, ubo2, mm2, trM, hcam, hrm, hw, htr⟩ := render_eq L w w' tr h
  rw [hw]
  exact renderModels_last_transform L (drawnModels w) _ _ _ hrm nm p hl

/-- Witness for C10: in `WBalls` two entities share the fire orb model at
positions `(1,2,3)` and `(4,5,6)`; after the pass the single cached
instance carries the translation of the later one. -/
theorem shared_model_instance_witness :
    (render L1 WBalls).map
        (fun q => findEntry q.1.modelManager.loaded_models
          "resources/models/fire_orb.glb")
      = some (some ⟨Mat4.fromTranslation ⟨4, 5, 6⟩⟩) := by
  have hs : (render L1 WBalls).isSome = true := by decide
  obtain ⟨q, hq⟩ := Option.isSome_iff_exists.mp hs
  have hl : lastDrawnAt WBalls "resources/models/fire_orb.glb"
      = some ⟨4, 5, 6⟩ := by decide
  obtain ⟨m, hm, ht⟩ := shared_model_instance L1 WBalls q.1 q.2
    "resources/models/fire_orb.glb" ⟨4, 5, 6⟩ hq hl
  have hmeq : m = ⟨Mat4.fromTranslation ⟨4, 5, 6⟩⟩ := by
    cases m
    cases ht
    rfl
  rw [hq, Option.map_some', hm, hmeq]

/-- A world whose single entity is a camera that ALSO carries Velocity: the
movement system then writes the Position that the camera system reads. -/
def WConflict : World :=
  { entities :=
      [{ Entity.empty with
           position := some ⟨0, 0, 0⟩
           velocity := some ⟨0, 0, 30⟩
           pitchYaw := some ⟨0, 0⟩
           cameraComponent := some ⟨camDefault⟩ }]
    time := { time := 0, time_delta := FIXED_UPDATE_TIME }
    renderParams := RenderParams.new extT
    modelManager := ModelManager.new }

/-- A world with a full camera entity (no Velocity) and a separate moving
ball entity: the two systems' write sets do not touch each other's reads. -/
def WMove : World :=
  { entities :=
      [{ Entity.empty with
           position := some ⟨0, 3, 10⟩
           pitchYaw := some ⟨-1/10, 0⟩
           cameraComponent := some ⟨camDefault⟩ },
       { Entity.empty with
           position := some ⟨0, 0, 0⟩
           velocity := some ⟨0, 0, 30⟩ }]
    time := { time := 0, time_delta := FIXED_UPDATE_TIME }
    renderParams := RenderParams.new extT
    modelManager := ModelManager.new }

/-- Counterexample to C7 as stated: in `WConflict` the camera entity also
has Velocity, so movement writes the Position that camera reads, and the
two orders produce different worlds (the camera state records different
positions). The access sets conflict on Position (movement writes it,
camera reads it), so the claim's premise of non-conflict does not hold for
every world. -/
theorem movement_camera_commute_counterexample :
    cameraSys extT (movementSys WConflict) ≠
      (cameraSys extT WConflict).map movementSys := by
  simp [WConflict, cameraSys, movementSys, camUpdate, moveEntity, camTick,
    extT, hasFullCam, Entity.empty, camDefault, FIXED_UPDATE_TIME,
    FIXED_UPDATE, Mat4.fromTranslation, List.countP_cons]

theorem hasFullCam_moveEntity (dt : ℚ) (e : Entity) :
    hasFullCam (moveEntity dt e) = hasFullCam e := by
  obtain ⟨pos, vel, py, mdl, cc⟩ := e
  cases pos <;> cases vel <;> simp [moveEntity, hasFullCam]

theorem camUpdate_moveEntity_comm (ext : Externals) (dt : ℚ) (e : Entity)
    (he : ¬(e.velocity.isSome = true ∧ hasFullCam e = true)) :
    camUpdate ext (moveEntity dt e) = moveEntity dt (camUpdate ext e) := by
  obtain ⟨pos, vel, py, mdl, cc⟩ := e
  cases pos <;> cases vel <;> cases py <;> cases cc <;>
    simp_all [moveEntity, camUpdate, hasFullCam]

/-- C7 (amended): the movement and camera systems commute on every world
in which no entity carries Velocity together with the full camera
component set — in particular on the world this program spawns, whose
camera entity has no Velocity. (When some entity has both, movement's
write of Position conflicts with camera's read of it and the two orders
differ, as the counterexample shows, so unrestricted concurrency is not
order-independent.) -/
theorem movement_camera_commute (ext : Externals) (w : World)
    (h : ∀ e ∈ w.entities,
      ¬(e.velocity.isSome = true ∧ hasFullCam e = true)) :
    cameraSys ext (movementSys w) = (cameraSys ext w).map movementSys := by
  have hcnt : (w.entities.map (moveEntity w.time.time_delta)).countP
      (fun e => hasFullCam e) = w.entities.countP (fun e => hasFullCam e) := by
    rw [List.countP_map]
    exact List.countP_congr (fun e _ => by
      simp [Function.comp, hasFullCam_moveEntity])
  by_cases hc : w.entities.countP (fun e => hasFullCam e) = 1
  · unfold cameraSys movementSys
    simp only [hcnt, hc, if_pos rfl, Option.map_some']
    have hmaps : (w.entities.map (moveEntity w.time.time_delta)).map
        (camUpdate ext)
        = (w.entities.map (camUpdate ext)).map
          (moveEntity w.time.time_delta) := by
      rw [List.map_map, List.map_map]
      exact List.map_congr_left (fun e he =>
        camUpdate_moveEntity_comm ext w.time.time_delta e (h e he))
    simp [hmaps]
  · unfold cameraSys movementSys
    simp [hcnt, hc]

/-- Witness for C7 (amended): in `WMove` (full camera entity without
Velocity, plus a moving ball) the two system orders agree. -/
theorem movement_camera_commute_witness :
    cameraSys extT (movementSys WMove) = (cameraSys extT WMove).map movementSys :=
  movement_camera_commute extT WMove (by decide)

theorem runTicks_of_lt {ext : Externals} {w : World} {s acc : ℚ}
    (h : acc < FIXED_UPDATE_TIME) :
    runTicks ext w s acc = some (w, s, acc) := by
  rw [runTicks]
  simp [not_le.mpr h]

theorem runTicks_step {ext : Externals} {w w3 : World} {s acc : ℚ}
    {r : World × ℚ × ℚ} (h : FIXED_UPDATE_TIME ≤ acc)
    (hc : cameraSys ext (movementSys
      { w with time := ⟨s, FIXED_UPDATE_TIME⟩ }) = some w3)
    (hrest : runTicks ext w3 (s + FIXED_UPDATE_TIME)
      (acc - FIXED_UPDATE_TIME) = some r) :
    runTicks ext w s acc = some r := by
  rw [runTicks]
  simp [h, hc, hrest]

theorem runTicks_of_ge_some {ext : Externals} {w w3 : World} {s acc : ℚ}
    (h : FIXED_UPDATE_TIME ≤ acc)
    (hc : cameraSys ext (movementSys
      { w with time := ⟨s, FIXED_UPDATE_TIME⟩ }) = some w3) :
    runTicks ext w s acc
      = runTicks ext w3 (s + FIXED_UPDATE_TIME) (acc - FIXED_UPDATE_TIME) := by
  rw [runTicks]
  simp [h, hc]

/-- A successful camera system run maps the guarded camera update over the
entity list and changes nothing else. -/
theorem cameraSys_some {ext : Externals} {wx w3 : World}
    (h : cameraSys ext wx = some w3) :
    w3 = { wx with entities := wx.entities.map (camUpdate ext) } := by
  unfold cameraSys at h
  split at h
  · cases h; rfl
  · cases h

theorem camUpdate_pos_vel (ext : Externals) (e : Entity) :
    (camUpdate ext e).position = e.position ∧
    (camUpdate ext e).velocity = e.velocity := by
  obtain ⟨pos, vel, py, mdl, cc⟩ := e
  cases pos <;> cases py <;> cases cc <;> simp [camUpdate]

theorem moveEntity_pos_vel (dt : ℚ) (e : Entity) (p : Position) (v : Velocity)
    (hp : e.position = some p) (hv : e.velocity = some v) :
    (moveEntity dt e).position
      = some ⟨p.x + v.x * dt, p.y + v.y * dt, p.z + v.z * dt⟩ ∧
    (moveEntity dt e).velocity = some v := by
  obtain ⟨pos, vel, py, mdl, cc⟩ := e
  cases hp
  cases hv
  simp [moveEntity]

/-- Invariants of the fixed-timestep loop: the simulation time advances by
exactly `count * FIXED_DT` where `count` is the accumulator loop's tick
count, the final accumulator is the loop's leftover, and every entity with
Position and Velocity has its position advanced by `velocity * (count *
FIXED_DT)` with its velocity unchanged. -/
theorem runTicks_invariants (ext : Externals) :
    ∀ (w : World) (s acc : ℚ) (r : World × ℚ × ℚ),
      runTicks ext w s acc = some r →
      r.2.1 = s + ((fixedTicks acc).1 : ℚ) * FIXED_UPDATE_TIME ∧
      r.2.2 = (fixedTicks acc).2 ∧
      (∀ (i : ℕ) (e : Entity) (p : Position) (v : Velocity),
        w.entities[i]? = some e → e.position = some p → e.velocity = some v →
        ∃ e2, r.1.entities[i]? = some e2 ∧
          e2.position = some
            ⟨p.x + v.x * (((fixedTicks acc).1 : ℚ) * FIXED_UPDATE_TIME),
             p.y + v.y * (((fixedTicks acc).1 : ℚ) * FIXED_UPDATE_TIME),
             p.z + v.z * (((fixedTicks acc).1 : ℚ) * FIXED_UPDATE_TIME)⟩ ∧
          e2.velocity = some v) := by
  intro w s acc
  induction w, s, acc using runTicks.induct ext with
  | case1 w s acc hle w2 hc =>
    intro r hr
    rw [runTicks] at hr
    simp only [if_pos hle] at hr
    rw [hc] at hr
    cases hr
  | case2 w s acc hle w2 w3 hc ih =>
    intro r hr
    rw [runTicks_of_ge_some hle hc] at hr
    obtain ⟨ih1, ih2, ih3⟩ := ih r hr
    rw [fixedTicks_of_ge hle]
    refine ⟨?_, ih2, ?_⟩
    · rw [ih1]; push_cast; ring
    · intro i e p v he hp hv
      have hw3 := cameraSys_some hc
      have hmv := moveEntity_pos_vel FIXED_UPDATE_TIME e p v hp hv
      have hcu := camUpdate_pos_vel ext (moveEntity FIXED_UPDATE_TIME e)
      have he3 : w3.entities[i]? = some (camUpdate ext
          (moveEntity FIXED_UPDATE_TIME e)) := by
        rw [hw3]
        simp only [movementSys, List.getElem?_map]
        rw [he]
        rfl
      obtain ⟨e2, h1, h2, h3⟩ := ih3 i (camUpdate ext
          (moveEntity FIXED_UPDATE_TIME e))
        ⟨p.x + v.x * FIXED_UPDATE_TIME, p.y + v.y * FIXED_UPDATE_TIME,
         p.z + v.z * FIXED_UPDATE_TIME⟩ v he3
        (by rw [hcu.1, hmv.1]) (by rw [hcu.2, hmv.2])
      refine ⟨e2, h1, ?_, h3⟩
      rw [h2]
      simp only [Option.some.injEq, Position.mk.injEq]
      refine ⟨?_, ?_, ?_⟩ <;> push_cast <;> ring
  | case3 w s acc hlt =>
    intro r hr
    rw [runTicks_of_lt (not_le.mp hlt)] at hr
    cases hr
    rw [fixedTicks_of_lt (not_le.mp hlt)]
    refine ⟨by push_cast; ring, rfl, ?_⟩
    intro i e p v he hp hv
    refine ⟨e, he, ?_, hv⟩
    rw [hp]
    obtain ⟨px, py, pz⟩ := p
    push_cast
    simp

/-- The total number of simulation ticks a run of frames executes, given
the starting accumulator and each frame's elapsed time, threading the
leftover accumulator from frame to frame exactly as `main` does. -/
def totalTicks (acc : ℚ) : List FrameInput → ℕ
  | [] => 0
  | inp :: rest =>
    (fixedTicks (acc + inp.frameTime)).1 +
      totalTicks (fixedTicks (acc + inp.frameTime)).2 rest

/-- The total tick count over any frame decomposition equals the floor of
the total elapsed time (plus starting accumulator) divided by the fixed
step: tick totals are independent of how time is split into frames, given
the loop invariant that the starting accumulator lies in `[0, FIXED_DT)`. -/
theorem totalTicks_eq_floor :
    ∀ (frames : List FrameInput) (acc : ℚ), 0 ≤ acc →
      acc < FIXED_UPDATE_TIME →
      (∀ f ∈ frames, 0 ≤ f.frameTime) →
      (totalTicks acc frames : ℤ)
        = ⌊(acc + (frames.map FrameInput.frameTime).sum)
            / FIXED_UPDATE_TIME⌋ := by
  have hdt : 0 < FIXED_UPDATE_TIME := FIXED_UPDATE_TIME_pos
  intro frames
  induction frames with
  | nil =>
    intro acc hacc hlt _
    have hz : ⌊acc / FIXED_UPDATE_TIME⌋ = 0 := by
      rw [Int.floor_eq_zero_iff]
      exact ⟨by positivity, by rw [div_lt_one hdt]; exact hlt⟩
    simp [totalTicks, hz]
  | cons f rest ih =>
    intro acc hacc hlt hall
    have hsum0 : (0 : ℚ) ≤ acc + f.frameTime := by
      have := hall f (List.mem_cons_self _ _)
      linarith
    obtain ⟨hn, ha, ha0, halt⟩ := fixedTicks_spec (acc + f.frameTime) hsum0
    have ihres := ih (fixedTicks (acc + f.frameTime)).2 ha0 halt
      (fun g hg => hall g (List.mem_cons_of_mem _ hg))
    have hfl0 : (0 : ℤ) ≤ ⌊(acc + f.frameTime) / FIXED_UPDATE_TIME⌋ :=
      Int.floor_nonneg.mpr (by positivity)
    have hcast : ((fixedTicks (acc + f.frameTime)).1 : ℤ)
        = ⌊(acc + f.frameTime) / FIXED_UPDATE_TIME⌋ := by
      rw [hn]
      omega
    have hshift : ((fixedTicks (acc + f.frameTime)).2
          + (rest.map FrameInput.frameTime).sum) / FIXED_UPDATE_TIME
        = (acc + (f.frameTime + (rest.map FrameInput.frameTime).sum))
            / FIXED_UPDATE_TIME
          - ((fixedTicks (acc + f.frameTime)).1 : ℚ) := by
      rw [ha]
      field_simp
      ring
    have hfloor : ⌊((fixedTicks (acc + f.frameTime)).2
          + (rest.map FrameInput.frameTime).sum) / FIXED_UPDATE_TIME⌋
        = ⌊(acc + (f.frameTime + (rest.map FrameInput.frameTime).sum))
            / FIXED_UPDATE_TIME⌋
          - ((fixedTicks (acc + f.frameTime)).1 : ℤ) := by
      rw [hshift]
      rw [show (((fixedTicks (acc + f.frameTime)).1 : ℚ))
          = (((fixedTicks (acc + f.frameTime)).1 : ℤ) : ℚ) by push_cast; rfl]
      exact Int.floor_sub_int _ _
    simp only [totalTicks, List.map_cons, List.sum_cons]
    push_cast
    rw [ihres, hfloor]
    ring

/-- The camera-input block changes only PitchYaw and Position of the
targeted entity: its CameraComponent, Velocity and Model survive. -/
theorem inputUpdateEntity_fields (inp : FrameInput) (e e2 : Entity)
    (h : inputUpdateEntity inp e = some e2) :
    e2.cameraComponent = e.cameraComponent ∧ e2.velocity = e.velocity ∧
    e2.model = e.model := by
  obtain ⟨pos, vel, py, mdl, cc⟩ := e
  cases py with
  | none => cases h
  | some py0 =>
    simp only [inputUpdateEntity] at h
    split at h
    · split at h
      · cases h
        exact ⟨rfl, rfl, rfl⟩
      · cases h
    · cases h
      exact ⟨rfl, rfl, rfl⟩

theorem inputUpdate_dest (c : ℕ) (inp : FrameInput) (w w1 : World)
    (h : inputUpdate c inp w = some w1) :
    ∃ e e2, w.entities[c]? = some e ∧ inputUpdateEntity inp e = some e2 ∧
      w1 = { w with entities := w.entities.set c e2 } := by
  unfold inputUpdate at h
  split at h
  · cases h
  · rename_i e he
    cases h2 : inputUpdateEntity inp e with
    | none => rw [h2] at h; cases h
    | some e2 =>
      rw [h2] at h
      cases h
      exact ⟨e, e2, he, h2, rfl⟩

theorem map_set_of_eq {α β : Type} (f : α → β) :
    ∀ (l : List α) (i : ℕ) (a b : α), l[i]? = some a → f b = f a →
      (l.set i b).map f = l.map f := by
  intro l
  induction l with
  | nil => intro i a b h; simp at h
  | cons x t ih =>
    intro i a b h hf
    cases i with
    | zero =>
      simp only [List.getElem?_cons_zero, Option.some.injEq] at h
      subst h
      simp [List.set, hf]
    | succ n =>
      simp only [List.getElem?_cons_succ] at h
      simp [List.set, ih n a b h hf]

/-- The render system's single-camera query depends only on the per-entity
CameraComponent values. -/
theorem getSingleCam_congr (w1 w2 : World)
    (h : w1.entities.map (fun e => e.cameraComponent)
      = w2.entities.map (fun e => e.cameraComponent)) :
    getSingleCam w1 = getSingleCam w2 := by
  have key : ∀ (l : List Entity),
      l.filterMap (fun e => e.cameraComponent)
        = (l.map (fun e => e.cameraComponent)).filterMap id := by
    intro l
    rw [List.filterMap_map]
    rfl
  unfold getSingleCam
  rw [key, h, ← key]

/-- The camera-input block preserves the Time resource, both render
resources, all entities at other indices, and every entity's
CameraComponent. -/
theorem inputUpdate_preserves (c : ℕ) (inp : FrameInput) (w w1 : World)
    (h : inputUpdate c inp w = some w1) :
    w1.time = w.time ∧ w1.renderParams = w.renderParams ∧
    w1.modelManager = w.modelManager ∧
    (∀ i, i ≠ c → w1.entities[i]? = w.entities[i]?) ∧
    w1.entities.map (fun e => e.cameraComponent)
      = w.entities.map (fun e => e.cameraComponent) := by
  obtain ⟨e, e2, he, he2, hw1⟩ := inputUpdate_dest c inp w w1 h
  subst hw1
  refine ⟨rfl, rfl, rfl, ?_, ?_⟩
  · intro i hi
    simp [List.getElem?_set_ne (fun hne => hi hne.symm)]
  · exact map_set_of_eq _ w.entities c e e2 he
      (inputUpdateEntity_fields inp e e2 he2).1

/-- The scene-draw loop does not touch the sim-time or view-matrix fields
of the uniform block. -/
theorem renderModels_ubo (L : String → Option GltfModel) :
    ∀ (es : List (Vec3 × String)) (ubo : UniformBuffer) (mm : ModelManager)
      (r : UniformBuffer × ModelManager × List GlCmd),
      renderModels L es ubo mm = some r →
      r.1.simTime = ubo.simTime ∧ r.1.matView = ubo.matView := by
  intro es
  induction es with
  | nil =>
    intro ubo mm r h
    cases h
    exact ⟨rfl, rfl⟩
  | cons pn rest ih =>
    intro ubo mm r h
    obtain ⟨q, n⟩ := pn
    dsimp only [renderModels] at h
    split at h
    · cases h
    · rename_i mm1 hwm
      split at h
      · cases h
      · rename_i ubo2 mm2 trR hrm
        cases h
        have hx := ih _ _ _ hrm
        exact hx

/-- What a successful render pass uploads: the sim time of the Time
resource and the view matrix of the single camera, with entities and the
Time resource untouched. -/
theorem render_state (L : String → Option GltfModel) (w w' : World)
    (tr : List GlCmd) (h : render L w = some (w', tr)) :
    ∃ cam, getSingleCam w = some cam ∧
      w'.renderParams.ubo_global.simTime = w.time.time ∧
      w'.renderParams.ubo_global.matView = cam.view ∧
      w'.time = w.time ∧ w'.entities = w.entities := by
  obtain ⟨cam, ubo2, mm2, trM, hcam, hrm, hw, htr⟩ := render_eq L w w' tr h
  obtain ⟨hsim, hview⟩ := renderModels_ubo L (drawnModels w) _ _ _ hrm
  exact ⟨cam, hcam, by rw [hw]; exact hsim, by rw [hw]; exact hview,
    by rw [hw], by rw [hw]⟩

theorem runFrame_eq {ext : Externals} {L : String → Option GltfModel}
    {inp : FrameInput} {st : LoopState} {w1 w2 w3 : World} {sim2 acc2 : ℚ}
    {tr : List GlCmd}
    (h1 : inputUpdate st.camIdx inp st.w = some w1)
    (h2 : runTicks ext w1 st.simTime (st.accumulator + inp.frameTime)
      = some (w2, sim2, acc2))
    (h3 : render L w2 = some (w3, tr)) :
    runFrame ext L inp st
      = some ({ st with w := w3, simTime := sim2, accumulator := acc2 }, tr) := by
  unfold runFrame
  rw [h1, Option.some_bind, h2, Option.some_bind, h3, Option.some_bind]

theorem runFrame_dest {ext : Externals} {L : String → Option GltfModel}
    {inp : FrameInput} {st st2 : LoopState} {tr : List GlCmd}
    (h : runFrame ext L inp st = some (st2, tr)) :
    ∃ w1 w2 sim2 acc2 w3,
      inputUpdate st.camIdx inp st.w = some w1 ∧
      runTicks ext w1 st.simTime (st.accumulator + inp.frameTime)
        = some (w2, sim2, acc2) ∧
      render L w2 = some (w3, tr) ∧
      st2 = { st with w := w3, simTime := sim2, accumulator := acc2 } := by
  unfold runFrame at h
  cases h1 : inputUpdate st.camIdx inp st.w with
  | none => rw [h1] at h; cases h
  | some w1 =>
    rw [h1, Option.some_bind] at h
    cases h2 : runTicks ext w1 st.simTime (st.accumulator + inp.frameTime) with
    | none => rw [h2] at h; cases h
    | some r =>
      obtain ⟨w2, sim2, acc2⟩ := r
      rw [h2, Option.some_bind] at h
      cases h3 : render L w2 with
      | none => rw [h3] at h; cases h
      | some q =>
        obtain ⟨w3, tr3⟩ := q
        rw [h3, Option.some_bind] at h
        cases h
        exact ⟨w1, w2, sim2, acc2, w3, rfl, h2, h3, rfl⟩

theorem runFrames_cons_dest {ext : Externals} {L : String → Option GltfModel}
    {inp : FrameInput} {rest : List FrameInput} {st st' : LoopState}
    (h : runFrames ext L (inp :: rest) st = some st') :
    ∃ st2 tr, runFrame ext L inp st = some (st2, tr) ∧
      runFrames ext L rest st2 = some st' := by
  unfold runFrames at h
  split at h
  · cases h
  · rename_i st2 tr h1
    exact ⟨st2, tr, h1, h⟩

theorem runFrames_cons_eq {ext : Externals} {L : String → Option GltfModel}
    {inp : FrameInput} {rest : List FrameInput} {st st2 : LoopState}
    {tr : List GlCmd} (h : runFrame ext L inp st = some (st2, tr)) :
    runFrames ext L (inp :: rest) st = runFrames ext L rest st2 := by
  show (match runFrame ext L inp st with
    | none => none
    | some (st3, _) => runFrames ext L rest st3) = runFrames ext L rest st2
  rw [h]

/-- Across any run of frames, an entity with Position and Velocity (other
than the input-targeted camera entity) ends at `initial + velocity *
(totalTicks * FIXED_DT)`. -/
theorem runFrames_entity (ext : Externals) (L : String → Option GltfModel) :
    ∀ (frames : List FrameInput) (st st' : LoopState),
      runFrames ext L frames st = some st' →
      ∀ (i : ℕ) (e : Entity) (p : Position) (v : Velocity),
        i ≠ st.camIdx → st.w.entities[i]? = some e →
        e.position = some p → e.velocity = some v →
        ∃ e2, st'.w.entities[i]? = some e2 ∧
          e2.position = some
            ⟨p.x + v.x * ((totalTicks st.accumulator frames : ℚ)
                * FIXED_UPDATE_TIME),
             p.y + v.y * ((totalTicks st.accumulator frames : ℚ)
                * FIXED_UPDATE_TIME),
             p.z + v.z * ((totalTicks st.accumulator frames : ℚ)
                * FIXED_UPDATE_TIME)⟩ ∧
          e2.velocity = some v := by
  intro frames
  induction frames with
  | nil =>
    intro st st' h i e p v hi he hp hv
    cases h
    refine ⟨e, he, ?_, hv⟩
    rw [hp]
    obtain ⟨px, py, pz⟩ := p
    simp [totalTicks]
  | cons inp rest ih =>
    intro st st' h i e p v hi he hp hv
    obtain ⟨st2, tr, hfr, hrest⟩ := runFrames_cons_dest h
    obtain ⟨w1, w2, sim2, acc2, w3, h1, h2, h3, hst2⟩ := runFrame_dest hfr
    obtain ⟨htime, hrp, hmm, hidx, hcams⟩ := inputUpdate_preserves _ _ _ _ h1
    have he1 : w1.entities[i]? = some e := by rw [hidx i hi]; exact he
    obtain ⟨hsim, hacc, hent⟩ := runTicks_invariants ext w1 st.simTime
      (st.accumulator + inp.frameTime) (w2, sim2, acc2) h2
    obtain ⟨e1, he2, hp1, hv1⟩ := hent i e p v he1 hp hv
    obtain ⟨cam, hcam, hsimT, hview, htimeR, hents⟩ :=
      render_state L w2 w3 tr h3
    have hw2i : st2.w.entities[i]? = some e1 := by
      rw [hst2]
      dsimp only
      rw [hents]
      exact he2
    have hcx : st2.camIdx = st.camIdx := by rw [hst2]
    have hax : st2.accumulator
        = (fixedTicks (st.accumulator + inp.frameTime)).2 := by
      rw [hst2]
      exact hacc
    obtain ⟨e2, hee2, hpp, hvv⟩ := ih st2 st' hrest i e1 _ v
      (by rw [hcx]; exact hi) hw2i hp1 hv1
    refine ⟨e2, hee2, ?_, hvv⟩
    rw [hpp]
    simp only [Option.some.injEq, Position.mk.injEq]
    rw [hax]
    simp only [totalTicks]
    refine ⟨?_, ?_, ?_⟩ <;> push_cast <;> ring

/-- C2: one movement tick adds `velocity * FIXED_DT` to the position, so
for every entity with Position and Velocity (other than the entity the
per-frame camera input targets), after a run of frames executing `N` total
ticks the position is `initial + velocity * (N * FIXED_DT)` component-wise
and exactly (the rational model is exact, hence within any floating-point
tolerance), with the velocity unchanged; and `N` depends only on the total
elapsed time, not on how it was split into frames: under the loop
invariant `0 ≤ accumulator < FIXED_DT` and nonnegative frame times,
`N = ⌊(accumulator + ΣT) / FIXED_DT⌋`. -/
theorem movement_integrates_velocity (ext : Externals)
    (L : String → Option GltfModel) (frames : List FrameInput)
    (st st' : LoopState) (i : ℕ) (e : Entity) (p : Position) (v : Velocity)
    (hrun : runFrames ext L frames st = some st')
    (hi : i ≠ st.camIdx) (he : st.w.entities[i]? = some e)
    (hp : e.position = some p) (hv : e.velocity = some v) :
    (∃ e2, st'.w.entities[i]? = some e2 ∧
      e2.position = some
        ⟨p.x + v.x * ((totalTicks st.accumulator frames : ℚ)
            * FIXED_UPDATE_TIME),
         p.y + v.y * ((totalTicks st.accumulator frames : ℚ)
            * FIXED_UPDATE_TIME),
         p.z + v.z * ((totalTicks st.accumulator frames : ℚ)
            * FIXED_UPDATE_TIME)⟩ ∧
      e2.velocity = some v) ∧
    (0 ≤ st.accumulator → st.accumulator < FIXED_UPDATE_TIME →
      (∀ f ∈ frames, 0 ≤ f.frameTime) →
      (totalTicks st.accumulator frames : ℤ)
        = ⌊(st.accumulator + (frames.map FrameInput.frameTime).sum)
            / FIXED_UPDATE_TIME⌋) :=
  ⟨runFrames_entity ext L frames st st' hrun i e p v hi he hp hv,
   fun h0 h1 h2 => totalTicks_eq_floor frames st.accumulator h0 h1 h2⟩

/-- One frame input with no mouse movement, forward not held, and exactly
one fixed step of elapsed time. -/
def fOneTick : FrameInput := ⟨0, 0, false, FIXED_UPDATE_TIME⟩

/-- The starting loop state over `WMove`. -/
def STMove : LoopState := ⟨WMove, 0, 0, 0⟩

/-- `WMove` after exactly one simulation tick: the ball advanced by
`velocity * FIXED_DT`, the camera state recomputed from the camera
entity's Position and PitchYaw. -/
def WMoveTicked : World :=
  { entities :=
      [{ Entity.empty with
           position := some ⟨0, 3, 10⟩
           pitchYaw := some ⟨-1/10, 0⟩
           cameraComponent := some ⟨⟨⟨0, 3, 10⟩, -1/10, 0,
             Mat4.fromTranslation ⟨0, 3, 10⟩, ⟨0, 0, 0⟩⟩⟩ },
       { Entity.empty with
           position := some ⟨0, 0, 1⟩
           velocity := some ⟨0, 0, 30⟩ }]
    time := { time := 0, time_delta := FIXED_UPDATE_TIME }
    renderParams := RenderParams.new extT
    modelManager := ModelManager.new }

theorem inputUpdate_STMove :
    inputUpdate STMove.camIdx fOneTick STMove.w = some WMove := by
  simp [inputUpdate, inputUpdateEntity, STMove, WMove, fOneTick,
    Entity.empty, CAM_LOOK_SPEED, List.set]

theorem cameraSys_WMove :
    cameraSys extT (movementSys
      { WMove with time := ⟨(0 : ℚ), FIXED_UPDATE_TIME⟩ })
      = some WMoveTicked := by
  simp [cameraSys, movementSys, moveEntity, camUpdate, camTick, hasFullCam,
    WMove, WMoveTicked, extT, Entity.empty, camDefault, FIXED_UPDATE_TIME,
    FIXED_UPDATE, List.countP_cons, List.countP_nil]

theorem runTicks_WMove :
    runTicks extT WMove 0 (0 + FIXED_UPDATE_TIME)
      = some (WMoveTicked, 0 + FIXED_UPDATE_TIME,
          (0 + FIXED_UPDATE_TIME) - FIXED_UPDATE_TIME) := by
  have hle : FIXED_UPDATE_TIME ≤ 0 + FIXED_UPDATE_TIME := by
    norm_num
  exact runTicks_step hle cameraSys_WMove
    (runTicks_of_lt (by norm_num [FIXED_UPDATE_TIME, FIXED_UPDATE]))

/-- Witness for C2: one frame of exactly `FIXED_DT` elapsed time moves the
ball entity (index 1) of `WMove` by its velocity times one tick: the run
succeeds and the ball's position and velocity match the integrated form. -/
theorem movement_integrates_velocity_witness :
    (runFrames extT L1 [fOneTick] STMove).map
        (fun s => s.w.entities[1]?.map (fun e => (e.position, e.velocity)))
      = some (some (some (Position.mk
          ((0 : ℚ) + 0 * ((totalTicks STMove.accumulator [fOneTick] : ℚ)
            * FIXED_UPDATE_TIME))
          ((0 : ℚ) + 0 * ((totalTicks STMove.accumulator [fOneTick] : ℚ)
            * FIXED_UPDATE_TIME))
          ((0 : ℚ) + 30 * ((totalTicks STMove.accumulator [fOneTick] : ℚ)
            * FIXED_UPDATE_TIME))),
          some ⟨0, 0, 30⟩)) := by
  have hs : (render L1 WMoveTicked).isSome = true := by decide
  obtain ⟨q, hq⟩ := Option.isSome_iff_exists.mp hs
  have hfr : runFrame extT L1 fOneTick STMove
      = some ({ STMove with
                  w := q.1
                  simTime := 0 + FIXED_UPDATE_TIME
                  accumulator := (0 + FIXED_UPDATE_TIME) - FIXED_UPDATE_TIME },
              q.2) :=
    runFrame_eq inputUpdate_STMove runTicks_WMove hq
  have hrun : runFrames extT L1 [fOneTick] STMove
      = some { STMove with
                 w := q.1
                 simTime := 0 + FIXED_UPDATE_TIME
                 accumulator := (0 + FIXED_UPDATE_TIME) - FIXED_UPDATE_TIME } := by
    rw [runFrames_cons_eq hfr]
    rfl
  obtain ⟨e2, hie, hpos, hvel⟩ :=
    (movement_integrates_velocity extT L1 [fOneTick] STMove _ 1
      { Entity.empty with
          position := some ⟨0, 0, 0⟩
          velocity := some ⟨0, 0, 30⟩ }
      ⟨0, 0, 0⟩ ⟨0, 0, 30⟩ hrun (by decide) (by decide) rfl rfl).1
  rw [hrun, Option.map_some']
  rw [show ({ STMove with
                w := q.1
                simTime := 0 + FIXED_UPDATE_TIME
                accumulator := (0 + FIXED_UPDATE_TIME) - FIXED_UPDATE_TIME }
      : LoopState).w = q.1 from rfl] at hie ⊢
  rw [hie]
  simp only [Option.map_some']
  rw [hpos, hvel]

/-- C9: the view matrix and sim time the render pass uploads reflect only
state as of the last executed simulation tick. (a) If a frame runs zero
ticks (its accumulator plus frame time stays below `FIXED_DT`), the
uploaded view matrix and sim time equal the previous frame's uploads, even
though the frame's input may have changed PitchYaw and the camera's
Position (the derived camera state is only recomputed by the camera system,
which runs per tick). (b) On a zero-tick first frame, before any tick has
ever run, the uploaded view matrix is the default `FpsCamera::new()` view
and the uploaded sim time is 0. -/
theorem render_uploads_last_tick_state (ext : Externals)
    (L : String → Option GltfModel) :
    (∀ (inp1 inp2 : FrameInput) (st1 st2 st3 : LoopState)
       (tr1 tr2 : List GlCmd),
      runFrame ext L inp1 st1 = some (st2, tr1) →
      runFrame ext L inp2 st2 = some (st3, tr2) →
      st2.accumulator + inp2.frameTime < FIXED_UPDATE_TIME →
      st3.w.renderParams.ubo_global.matView
        = st2.w.renderParams.ubo_global.matView ∧
      st3.w.renderParams.ubo_global.simTime
        = st2.w.renderParams.ubo_global.simTime) ∧
    (∀ (inp : FrameInput) (st1 : LoopState) (tr : List GlCmd),
      runFrame ext L inp (initialState ext) = some (st1, tr) →
      (initialState ext).accumulator + inp.frameTime < FIXED_UPDATE_TIME →
      st1.w.renderParams.ubo_global.matView = ext.newCam.view ∧
      st1.w.renderParams.ubo_global.simTime = 0) := by
  constructor
  · intro inp1 inp2 st1 st2 st3 tr1 tr2 hf1 hf2 hz
    obtain ⟨w1a, w2a, sim2a, acc2a, w3a, h1a, h2a, h3a, hst2⟩ :=
      runFrame_dest hf1
    obtain ⟨w1b, w2b, sim2b, acc2b, w3b, h1b, h2b, h3b, hst3⟩ :=
      runFrame_dest hf2
    rw [runTicks_of_lt hz] at h2b
    have hw2b : w2b = w1b := by
      have := h2b
      simp only [Option.some.injEq, Prod.mk.injEq] at this
      exact this.1.symm
    subst hw2b
    obtain ⟨cam2, hcam2, hsim2, hview2, htime2, hent2⟩ :=
      render_state L w2b w3b tr2 h3b
    obtain ⟨ht2, _, _, _, hcams2⟩ := inputUpdate_preserves _ _ _ _ h1b
    obtain ⟨cam1, hcam1, hsim1, hview1, htime1, hent1⟩ :=
      render_state L w2a w3a tr1 h3a
    have hw3a : st2.w = w3a := by rw [hst2]
    have hgsc : getSingleCam w2b = getSingleCam w2a := by
      rw [getSingleCam_congr _ _ hcams2, hw3a]
      exact getSingleCam_congr _ _ (by rw [hent1])
    have hcc : cam2 = cam1 := by
      rw [hgsc, hcam1] at hcam2
      cases hcam2
      rfl
    have hst3w : st3.w = w3b := by rw [hst3]
    constructor
    · rw [hst3w, hview2, hcc, ← hview1, hw3a]
    · rw [hst3w, hsim2, ht2, hw3a, htime1, ← hsim1]
  · intro inp st1 tr hf hz
    obtain ⟨w1, w2, sim2, acc2, w3, h1, h2, h3, hst1⟩ := runFrame_dest hf
    rw [runTicks_of_lt hz] at h2
    have hw2 : w2 = w1 := by
      have := h2
      simp only [Option.some.injEq, Prod.mk.injEq] at this
      exact this.1.symm
    subst hw2
    obtain ⟨cam, hcam, hsim, hview, htime, hent⟩ := render_state L w2 w3 tr h3
    obtain ⟨ht, _, _, _, hcams⟩ := inputUpdate_preserves _ _ _ _ h1
    have hgsc : getSingleCam w2 = getSingleCam (initialWorld ext) :=
      getSingleCam_congr _ _ hcams
    have hinit : getSingleCam (initialWorld ext) = some ext.newCam := rfl
    have hcc : cam = ext.newCam := by
      rw [hgsc, hinit] at hcam
      cases hcam
      rfl
    have hst1w : st1.w = w3 := by rw [hst1]
    constructor
    · rw [hst1w, hview, hcc]
    · rw [hst1w, hsim, ht]
      rfl

/-- A frame input with no mouse movement, forward not held, zero elapsed
time (runs zero simulation ticks). -/
def fZero : FrameInput := ⟨0, 0, false, 0⟩

/-- A world with a single full camera entity whose camera state, Time
resource and uniform block are already consistent, so both the camera-input
block (with `fZero`) and the render pass are value-level fixed points. -/
def WCamFixed : World :=
  { entities :=
      [{ Entity.empty with
           position := some ⟨0, 0, 0⟩
           pitchYaw := some ⟨0, 0⟩
           cameraComponent := some ⟨camDefault⟩ }]
    time := Time.default
    renderParams := RenderParams.new ext0
    modelManager := ModelManager.new }

/-- The starting loop state over `WCamFixed`. -/
def STFix : LoopState := ⟨WCamFixed, 0, 0, 0⟩

/-- The GL trace of rendering `WCamFixed` (no drawn models). -/
def TRFix : List GlCmd :=
  preTrace (RenderParams.new ext0) ++ postTrace (RenderParams.new ext0)

theorem render_WCamFixed : render L1 WCamFixed = some (WCamFixed, TRFix) := rfl

theorem inputUpdate_WCamFixed :
    inputUpdate STFix.camIdx fZero STFix.w = some WCamFixed := by
  simp [inputUpdate, inputUpdateEntity, STFix, WCamFixed, fZero,
    Entity.empty, CAM_LOOK_SPEED, List.set]

theorem inputUpdate_initial :
    inputUpdate (initialState ext0).camIdx fZero (initialState ext0).w
      = some (initialWorld ext0) := by
  simp [inputUpdate, inputUpdateEntity, initialState, initialWorld, fZero,
    Entity.empty, CAM_LOOK_SPEED, List.set]

/-- Witness for C9: a zero-tick first frame over the spawned world uploads
the default camera view and sim time 0 (part b applied at `fZero`), and a
zero-tick frame over the fixed-point camera world repeats the previous
frame's uploads (part a applied to two consecutive `fZero` frames). -/
theorem render_uploads_last_tick_state_witness :
    (runFrame ext0 L1 fZero (initialState ext0)).map
        (fun q => (q.1.w.renderParams.ubo_global.matView,
                   q.1.w.renderParams.ubo_global.simTime))
      = some (ext0.newCam.view, 0) ∧
    WCamFixed.renderParams.ubo_global.matView
      = WCamFixed.renderParams.ubo_global.matView := by
  have hzlt : (initialState ext0).accumulator + fZero.frameTime
      < FIXED_UPDATE_TIME := by
    norm_num [initialState, fZero, FIXED_UPDATE_TIME, FIXED_UPDATE]
  constructor
  · have h2 : runTicks ext0 (initialWorld ext0) (initialState ext0).simTime
        ((initialState ext0).accumulator + fZero.frameTime)
        = some (initialWorld ext0, (initialState ext0).simTime,
            (initialState ext0).accumulator + fZero.frameTime) :=
      runTicks_of_lt hzlt
    have hs : (render L1 (initialWorld ext0)).isSome = true := by decide
    obtain ⟨q, hq⟩ := Option.isSome_iff_exists.mp hs
    have hfr : runFrame ext0 L1 fZero (initialState ext0)
        = some ({ initialState ext0 with
                    w := q.1
                    simTime := (initialState ext0).simTime
                    accumulator :=
                      (initialState ext0).accumulator + fZero.frameTime },
                q.2) :=
      runFrame_eq inputUpdate_initial h2 hq
    obtain ⟨hview, hsim⟩ := (render_uploads_last_tick_state ext0 L1).2
      fZero _ q.2 hfr hzlt
    rw [hfr, Option.map_some']
    rw [show ({ initialState ext0 with
                  w := q.1
                  simTime := (initialState ext0).simTime
                  accumulator :=
                    (initialState ext0).accumulator + fZero.frameTime }
        : LoopState).w = q.1 from rfl] at hview hsim
    rw [hview, hsim]
  · have hzf : STFix.accumulator + fZero.frameTime < FIXED_UPDATE_TIME := by
      norm_num [STFix, fZero, FIXED_UPDATE_TIME, FIXED_UPDATE]
    have h2f : runTicks ext0 WCamFixed STFix.simTime
        (STFix.accumulator + fZero.frameTime)
        = some (WCamFixed, STFix.simTime,
            STFix.accumulator + fZero.frameTime) :=
      runTicks_of_lt hzf
    have hfrA : runFrame ext0 L1 fZero STFix
        = some ({ STFix with
                    w := WCamFixed
                    simTime := STFix.simTime
                    accumulator := STFix.accumulator + fZero.frameTime },
                TRFix) :=
      runFrame_eq inputUpdate_WCamFixed h2f render_WCamFixed
    have hzf2 : ({ STFix with
                     w := WCamFixed
                     simTime := STFix.simTime
                     accumulator := STFix.accumulator + fZero.frameTime }
        : LoopState).accumulator + fZero.frameTime < FIXED_UPDATE_TIME := by
      norm_num [STFix, fZero, FIXED_UPDATE_TIME, FIXED_UPDATE]
    have h1f2 : inputUpdate ({ STFix with
                     w := WCamFixed
                     simTime := STFix.simTime
                     accumulator := STFix.accumulator + fZero.frameTime }
        : LoopState).camIdx fZero ({ STFix with
                     w := WCamFixed
                     simTime := STFix.simTime
                     accumulator := STFix.accumulator + fZero.frameTime }
        : LoopState).w = some WCamFixed := inputUpdate_WCamFixed
    have h2f2 : runTicks ext0 WCamFixed ({ STFix with
                     w := WCamFixed
                     simTime := STFix.simTime
                     accumulator := STFix.accumulator + fZero.frameTime }
        : LoopState).simTime (({ STFix with
                     w := WCamFixed
                     simTime := STFix.simTime
                     accumulator := STFix.accumulator + fZero.frameTime }
        : LoopState).accumulator + fZero.frameTime)
        = some (WCamFixed, STFix.simTime,
            (STFix.accumulator + fZero.frameTime) + fZero.frameTime) := by
      have := @runTicks_of_lt ext0 WCamFixed STFix.simTime
        ((STFix.accumulator + fZero.frameTime) + fZero.frameTime)
        (by norm_num [STFix, fZero, FIXED_UPDATE_TIME, FIXED_UPDATE])
      exact this
    have hfrB := runFrame_eq h1f2 h2f2 render_WCamFixed
    exact ((render_uploads_last_tick_state ext0 L1).1 fZero fZero STFix _ _
      TRFix TRFix hfrA hfrB hzf2).1
